/-
  Verification of the skill-sync scripts: a shallow embedding of
  scripts/config.py, scripts/install_skill.py, scripts/uninstall_skill.py,
  scripts/list_synced.py and scripts/update_skills.py.

  Modelling conventions:
  * A filesystem is a total map from paths (strings) to entries.  An entry is
    `absent`, a real node `node c` (a directory or regular file, its payload
    summarised by a natural-number fingerprint `c`), or a symbolic link
    `link t` storing its fully resolved target `t`.  Link chains are out of
    model (a link whose stored target is itself a link counts as dangling);
    the scripts only ever create links to the canonical repository directory,
    whose entry is a real directory, so this loses nothing.
  * `Path.exists()` (which follows symlinks) is `pathExists`,
    `Path.is_symlink()` is `isSymlink`, `Path.resolve()` is `resolvePath`,
    `os.path.islink` is `isSymlink`, `os.path.exists` is `pathExists`.
  * Python dicts (the JSON metadata ledger included) are modelled as
    functions into `Option`.  Python `set` unions of target-path strings are
    determinised as duplicate-avoiding list appends; the claims treat target
    lists as sets, and CPython set iteration order is unspecified anyway.
  * Interactive prompts are scripted values passed in explicitly (`decision`
    for ask_user_overwrite, `selection` for ask_sync_targets), following the
    spec's confirmation-boundary design note.
  * Directory-tree copies (`shutil.copytree`), moves (`shutil.move`), zip
    extraction and removals act on whole entries; `dirs_exist_ok` merging is
    modelled as content replacement (it is unreachable in the flows proved
    about, because a forced install removes the target first).
-/
import Mathlib

namespace SkillSync

abbrev Path := String

/-- One filesystem location: nothing, a real node (directory or regular
file, content summarised by a fingerprint), or a symlink storing its
resolved target. -/
inductive Entry where
  | absent
  | node (c : Nat)
  | link (t : Path)
deriving DecidableEq, Repr

/-- A snapshot of the filesystem, as a total map from paths to entries. -/
abbrev Fs := Path → Entry

def setEntry (fs : Fs) (p : Path) (e : Entry) : Fs :=
  fun q => if q = p then e else fs q

/-- `Path.is_symlink()`. -/
def isSymlink (fs : Fs) (p : Path) : Bool :=
  match fs p with
  | .link _ => true
  | _ => false

/-- `Path.resolve()`: a symlink resolves to its stored target, anything else
to itself. -/
def resolvePath (fs : Fs) (p : Path) : Path :=
  match fs p with
  | .link t => t
  | _ => p

def entryIsReal : Entry → Bool
  | .node _ => true
  | _ => false

/-- `Path.exists()`: true iff the path, after following a symlink, denotes a
real node. -/
def pathExists (fs : Fs) (p : Path) : Bool :=
  entryIsReal (fs (resolvePath fs p))

/-! ## install_skill.py -/

/-- One entry of the `available_platforms` dict of install_skill.py:
platform id (dict key), display name, and the per-skill target path
`info["path"] / skill_name` (precomputed, since every use appends the same
skill name). -/
structure PlatformInfo where
  id : String
  name : String
  target : Path
deriving DecidableEq, Repr

/-- `check_conflicts` (install_skill.py lines 107-127): the repo location is
a conflict whenever it exists; a platform location is a conflict when it
exists, unless it is a symlink whose resolution equals the resolution of the
canonical repository path.  The returned association list preserves the
dict's insertion order: repo first, then platforms in registry order. -/
def check_conflicts (fs : Fs) (repoSkill : Path) (platforms : List PlatformInfo) :
    List (String × Path) :=
  (if pathExists fs repoSkill then [("repo", repoSkill)] else [])
    ++ platforms.filterMap (fun pl =>
        if pathExists fs pl.target then
          if isSymlink fs pl.target
              && (resolvePath fs pl.target == resolvePath fs repoSkill) then
            none
          else
            some (pl.name, pl.target)
        else none)

/-- `create_symlink` (install_skill.py lines 181-198).  The returned Bool
records whether `target.symlink_to(source)` executed (a fresh link was
created); `False` is the "Skipping (exists, use force to overwrite)" branch.
`Path.symlink_to` raises FileExistsError when the target path is occupied,
which happens exactly when the entry is a symlink whose `exists()` is false
(a broken symlink): the pre-removal is guarded by `target.exists()`. -/
def create_symlink (fs : Fs) (source target : Path) (force : Bool) :
    Except String (Fs × Bool) :=
  if pathExists fs target then
    if !force then
      .ok (fs, false)
    else
      .ok (setEntry (setEntry fs target .absent) target (.link source), true)
  else
    match fs target with
    | .absent => .ok (setEntry fs target (.link source), true)
    | _ => .error "FileExistsError"

/-- The three kinds of install source accepted by install_skill.py: a plain
local directory, a `.skill` zip archive, or a git URL (already cloned into a
temporary directory by `clone_git_repo` before `install_to_repo` runs). -/
inductive SourceKind where
  | plainDir
  | skillArchive
  | gitClone
deriving DecidableEq, Repr

/-- The removal half of `install_to_repo` (install_skill.py lines 150-157):
`if target_path.exists() and force:` unlink / rmtree. -/
def repoRemove (fs : Fs) (repoSkill : Path) (force : Bool) : Fs :=
  if pathExists fs repoSkill && force then setEntry fs repoSkill .absent else fs

/-- The copy half of `install_to_repo` (install_skill.py lines 159-178),
acting on the post-removal filesystem: the git move, the archive
extraction, or the plain-directory copytree with its source-equals-target
no-op check. -/
def install_copy (fs1 : Fs) (source repoSkill : Path) (force : Bool)
    (kind : SourceKind) : Except (String × Fs) (Fs × Path) :=
  match kind with
  | .gitClone =>
      if resolvePath fs1 source = resolvePath fs1 repoSkill then
        .ok (fs1, repoSkill)
      else
        match fs1 source with
        | .node c =>
            .ok (setEntry (setEntry fs1 source .absent) repoSkill (.node c), repoSkill)
        | _ => .error ("shutil.move: source missing", fs1)
  | .skillArchive =>
      match fs1 source, fs1 repoSkill with
      | .node _, .link _ => .error ("extractall: target occupied by symlink", fs1)
      | .node c, _ => .ok (setEntry fs1 repoSkill (.node c), repoSkill)
      | _, _ => .error ("zipfile: bad archive", fs1)
  | .plainDir =>
      if resolvePath fs1 source = resolvePath fs1 repoSkill then
        .ok (fs1, repoSkill)
      else
        match fs1 source, fs1 repoSkill with
        | .node c, .absent => .ok (setEntry fs1 repoSkill (.node c), repoSkill)
        | .node c, .node _ =>
            if force then .ok (setEntry fs1 repoSkill (.node c), repoSkill)
            else .error ("copytree: FileExistsError", fs1)
        | .node _, .link _ => .error ("copytree: target occupied by symlink", fs1)
        | _, _ => .error ("copytree: source missing", fs1)

/-- `install_to_repo` (install_skill.py lines 143-178), with errors carrying
the filesystem at the failure point (a raised exception propagates out of
`main`).  Faithfully keeps the source's order of operations: the
`target_path.exists() and force` removal happens BEFORE the
source-equals-target no-op check. -/
def install_to_repo (fs : Fs) (source repoSkill : Path) (force : Bool)
    (kind : SourceKind) : Except (String × Fs) (Fs × Path) :=
  install_copy (repoRemove fs repoSkill force) source repoSkill force kind

/-- `sync_to_platforms` (install_skill.py lines 240-259): walk the selected
platform ids, skipping ids not in the available dict, creating a symlink for
each; also counts how many fresh links were created.  A raised exception
aborts the loop (and the whole script). -/
def sync_to_platforms (fs : Fs) (repoPath : Path) (selected : List String)
    (platforms : List PlatformInfo) (force : Bool) :
    Except (String × Fs) (Fs × Nat) :=
  match selected with
  | [] => .ok (fs, 0)
  | pid :: rest =>
      match platforms.find? (fun pl => pl.id == pid) with
      | none => sync_to_platforms fs repoPath rest platforms force
      | some pl =>
          match create_symlink fs repoPath pl.target force with
          | .error e => .error (e, fs)
          | .ok (fs2, created) =>
              match sync_to_platforms fs2 repoPath rest platforms force with
              | .error e => .error e
              | .ok (fs3, k) => .ok (fs3, (if created then 1 else 0) + k)

/-- One ledger entry: `{"source": ..., "targets": [...]}`. -/
structure LedgerEntry where
  source : Path
  targets : List Path
deriving DecidableEq, Repr

/-- The sync-metadata ledger, a JSON object mapping skill names to entries. -/
abbrev Ledger := String → Option LedgerEntry

/-- `os.path.exists(t) or os.path.islink(t)` (install_skill.py line 284). -/
def existsOrIsLink (fs : Fs) (t : Path) : Bool :=
  pathExists fs t || isSymlink fs t

/-- `update_sync_metadata` (install_skill.py lines 262-291): merge the
selected targets into the recorded set, drop the ones that neither exist nor
are symlinks, and store the entry with the canonical source path. -/
def update_sync_metadata (fs : Fs) (ledger : Ledger) (skillName : String)
    (selected : List String) (platforms : List PlatformInfo) (repoSkill : Path) :
    Ledger :=
  let current := (Option.map LedgerEntry.targets (ledger skillName)).getD []
  let newTargets := selected.filterMap
    (fun pid => Option.map PlatformInfo.target (platforms.find? (fun pl => pl.id == pid)))
  let merged := current ++ newTargets.filter (fun t => decide (t ∉ current))
  let valid := merged.filter (existsOrIsLink fs)
  fun n => if n = skillName then some ⟨repoSkill, valid⟩ else ledger n

/-- The outcome of one run of install_skill.py's `main`:
`cancelled` is the "Installation cancelled" sys.exit(0) branch, `completed`
counts the fresh symlinks created during the run, `errored` is any raised
exception or sys.exit(1). -/
inductive Outcome where
  | cancelled
  | completed (linksCreated : Nat)
  | errored (msg : String)
deriving DecidableEq, Repr

/-- The mutable state a run acts on: the filesystem and the persisted
ledger. -/
structure SysState where
  fs : Fs
  ledger : Ledger

/-- The inputs of one run of install_skill.py's `main`, with the two
interactive prompts scripted.  `source` is the resolved source path (for a
git source, the temporary clone directory, whose content is already in the
filesystem snapshot). -/
structure InstallArgs where
  skillName : String
  source : Path
  kind : SourceKind
  repoSkill : Path
  platforms : List PlatformInfo
  decision : Bool
  selection : List String

/-- The `finally` block of `main`: a git install removes its temporary clone
directory on every exit path. -/
def cleanupTemp (a : InstallArgs) (fs : Fs) : Fs :=
  if a.kind = .gitClone then setEntry fs a.source .absent else fs

/-- The conflict set `main` acts on: `check_conflicts`, then
`conflicts.pop("repo", None)` when reinstalling from the repo itself
(install_skill.py lines 343-345). -/
def filteredConflicts (fs : Fs) (a : InstallArgs) : List (String × Path) :=
  let conflicts := check_conflicts fs a.repoSkill a.platforms
  if a.kind ≠ .gitClone ∧ a.source = a.repoSkill then
    conflicts.filter (fun c => c.1 ≠ "repo")
  else conflicts

/-- `main` of install_skill.py (lines 294-374): source existence check (for
non-git sources; a git source was already cloned), conflict detection, the
overwrite prompt, install to the central repo, platform sync, ledger
update, temp cleanup. -/
def install_main (s : SysState) (a : InstallArgs) : SysState × Outcome :=
  if a.kind ≠ .gitClone ∧ ¬ pathExists s.fs a.source then
    (s, .errored "Path does not exist")
  else if filteredConflicts s.fs a ≠ [] ∧ a.decision = false then
    (⟨cleanupTemp a s.fs, s.ledger⟩, .cancelled)
  else
    match install_to_repo s.fs a.source a.repoSkill
        (decide (filteredConflicts s.fs a ≠ [])) a.kind with
    | .error (e, fsE) => (⟨cleanupTemp a fsE, s.ledger⟩, .errored e)
    | .ok (fs1, repoPath) =>
        match sync_to_platforms fs1 repoPath a.selection a.platforms
            (decide (filteredConflicts s.fs a ≠ [])) with
        | .error (e, fsE) => (⟨cleanupTemp a fsE, s.ledger⟩, .errored e)
        | .ok (fs2, links) =>
            (⟨cleanupTemp a fs2,
              update_sync_metadata fs2 s.ledger a.skillName
                a.selection a.platforms a.repoSkill⟩, .completed links)

/-! ## uninstall_skill.py -/

def SKILL_REPO : Path := "~/.skill_repo"
def GEMINI_SKILLS : Path := "~/.gemini/skills"
def CLAUDE_SKILLS : Path := "~/.claude/skills"
def ANTIGRAVITY_SKILLS : Path := "~/.gemini/antigravity/skills"

/-- The hardcoded `PLATFORMS` dict of uninstall_skill.py (lines 24-29):
exactly four locations, independent of config.py's registry. -/
def UNINSTALL_PLATFORMS : List (String × Path) :=
  [("repo", SKILL_REPO), ("gemini", GEMINI_SKILLS), ("claude", CLAUDE_SKILLS),
   ("antigravity", ANTIGRAVITY_SKILLS)]

/-- `base_path / skill_name`. -/
def joinPath (base : Path) (name : String) : Path := base ++ "/" ++ name

/-- `remove_path` (uninstall_skill.py lines 47-59): unlink a symlink or
file, rmtree a directory; returns whether anything was removed. -/
def remove_path (fs : Fs) (p : Path) : Fs × Bool :=
  if !(pathExists fs p) && !(isSymlink fs p) then (fs, false)
  else (setEntry fs p .absent, true)

/-- `get_skill_locations` (uninstall_skill.py lines 62-76): probe only the
four hardcoded locations. -/
def get_skill_locations (fs : Fs) (skillName : String) : List (String × Path) :=
  UNINSTALL_PLATFORMS.filterMap (fun pr =>
    let p := joinPath pr.2 skillName
    if pathExists fs p || isSymlink fs p then some (pr.1, p) else none)

/-- The removal loop of `uninstall_skill` (lines 137-151). -/
def removeAll (fs : Fs) (skillName : String) (targets : List String) : Fs :=
  targets.foldl (fun f t =>
    match UNINSTALL_PLATFORMS.find? (fun pr => pr.1 == t) with
    | some pr => (remove_path f (joinPath pr.2 skillName)).1
    | none => f) fs

/-- `uninstall_skill` (uninstall_skill.py lines 129-174): remove the chosen
locations, then update the ledger — deleting the whole entry when `repo` is
among the targets, otherwise keeping exactly the recorded targets for which
`Path(t).exists()` holds in the post-removal filesystem.  The ledger is
saved only when the skill has an entry. -/
def uninstall_skill (fs : Fs) (ledger : Ledger) (skillName : String)
    (targets : List String) : Fs × Ledger :=
  let fs2 := removeAll fs skillName targets
  match ledger skillName with
  | none => (fs2, ledger)
  | some entry =>
      if "repo" ∈ targets then
        (fs2, fun n => if n = skillName then none else ledger n)
      else
        let remaining := entry.targets.filter (fun t => pathExists fs2 t)
        (fs2, fun n => if n = skillName then some ⟨entry.source, remaining⟩ else ledger n)

/-! ## the two metadata loaders -/

/-- The state of the persisted ledger file: missing, present but not valid
JSON, or parsed successfully. -/
inductive LedgerFile where
  | missing
  | malformed
  | parsed (m : Ledger)

def emptyLedger : Ledger := fun _ => none

/-- `load_metadata` of config.py (lines 83-91): a json.JSONDecodeError is
caught and an empty dict returned. -/
def config_load_metadata : LedgerFile → Ledger
  | .missing => emptyLedger
  | .malformed => emptyLedger
  | .parsed m => m

/-- `load_metadata` of uninstall_skill.py (lines 32-37): no try/except, so a
json.JSONDecodeError propagates and kills the script. -/
def uninstall_load_metadata : LedgerFile → Except String Ledger
  | .missing => .ok emptyLedger
  | .malformed => .error "json.decoder.JSONDecodeError"
  | .parsed m => .ok m

/-! ## config.py platform registry -/

structure PlatformConf where
  displayName : String
  id : String
  globalRoot : Path
  localRel : String
deriving DecidableEq, Repr

/-- `SUPPORTED_PLATFORMS` of config.py (lines 12-63): the ten configured
platforms, with home-relative global roots written with a literal tilde. -/
def SUPPORTED_PLATFORMS : List PlatformConf :=
  [⟨"Claude Code", "claude", "~/.claude/skills", ".claude/skills"⟩,
   ⟨"GitHub Copilot", "copilot", "~/.copilot/skills", ".github/skills"⟩,
   ⟨"Google Antigravity", "antigravity", "~/.gemini/antigravity/skills", ".agent/skills"⟩,
   ⟨"Cursor", "cursor", "~/.cursor/skills", ".cursor/skills"⟩,
   ⟨"OpenCode", "opencode", "~/.config/opencode/skill", ".opencode/skill"⟩,
   ⟨"OpenAI Codex", "codex", "~/.codex/skills", ".codex/skills"⟩,
   ⟨"Gemini CLI", "gemini", "~/.gemini/skills", ".gemini/skills"⟩,
   ⟨"Windsurf", "windsurf", "~/.codeium/windsurf/skills", ".windsurf/skills"⟩,
   ⟨"Qwen Code", "qwen", "~/.qwen/skills", ".qwen/skills"⟩,
   ⟨"Qoder", "qoder", "~/.qoder/skills", ".qoder/skills"⟩]

/-! ## list_synced.py -/

/-- The five classifications `check_path_status` can print, as an inductive
in place of the (icon, description) string pair: `notInstalled` is
("❌", "Not installed"), `brokenSymlink` ("⚠️", "Broken symlink"), `synced`
("✅", "Synced"), `linked t` ("🔗", "Linked → t"), `localDirectory`
("📁", "Local directory (not synced)"). -/
inductive PathStatus where
  | notInstalled
  | brokenSymlink
  | synced
  | linked (target : Path)
  | localDirectory
deriving DecidableEq, Repr

/-- `check_path_status` (list_synced.py lines 76-94), translated branch by
branch from the code's if-ladder. -/
def check_path_status (fs : Fs) (path : Path) (expectedSource : Option Path) :
    PathStatus :=
  if !(pathExists fs path) && !(isSymlink fs path) then .notInstalled
  else if isSymlink fs path then
    let target := resolvePath fs path
    if !(pathExists fs target) then .brokenSymlink
    else
      match expectedSource with
      | some e => if target = e then .synced else .linked target
      | none => .linked target
  else .localDirectory

/-- The location-state prober exactly as the specification words it
(spec 4.2), written as a case split on the entry rather than the code's
if-ladder: absent when the path neither exists nor is a symlink; for a
symlink, broken when the resolution does not exist, owned when it equals the
supplied expected canonical target, foreign otherwise (carrying the resolved
target); an existing non-symlink is a foreign directory. -/
def specLocationState (fs : Fs) (path : Path) (expected : Option Path) :
    PathStatus :=
  match fs path with
  | .absent => .notInstalled
  | .node _ => .localDirectory
  | .link t =>
      if pathExists fs t then
        match expected with
        | some e => if t = e then .synced else .linked t
        | none => .linked t
      else .brokenSymlink

/-! ## update_skills.py / list_synced.py git probing -/

/-- What the underlying git subprocess calls can do during one probe:
the fetch fails (CalledProcessError), the rev-list fails because no upstream
is tracked (CalledProcessError), the 10-second fetch timeout expires
(TimeoutExpired), or both rev-list counts come back. -/
inductive ProbeOutcome where
  | fetchFail
  | noUpstream
  | timeoutExpired
  | counts (behind ahead : Nat)
deriving DecidableEq, Repr

/-- `check_git_remote_status` (list_synced.py lines 16-73); `none` is a
directory without a `.git`.  Message strings abbreviate the printed text
(emoji prefixes dropped). -/
def check_git_remote_status : Option ProbeOutcome → String × String
  | none => ("not_git", "")
  | some .fetchFail => ("error", "Git Error (No upstream?)")
  | some .noUpstream => ("error", "Git Error (No upstream?)")
  | some .timeoutExpired => ("error", "Timeout")
  | some (.counts behind ahead) =>
      if behind > 0 then ("update_available", toString behind ++ " commits behind")
      else if ahead > 0 then ("up_to_date", toString ahead ++ " commits ahead")
      else ("up_to_date", "Up to date")

/-- `check_updates_available` (update_skills.py lines 28-77): returns
(has_updates, detail string). -/
def check_updates_available : ProbeOutcome → Bool × String
  | .fetchFail => (false, "Git Error (No upstream?)")
  | .noUpstream => (false, "Git Error (No upstream?)")
  | .timeoutExpired => (false, "Timeout")
  | .counts behind ahead =>
      if behind > 0 then (true, toString behind ++ " new commits")
      else if ahead > 0 then (false, toString ahead ++ " commits ahead")
      else (false, "Up to date")

/-- The parallel probe batches of update_skills.py (lines 144-147) and
list_synced.py (lines 140-146): one future per skill, each computing only
from its own repository directory; results are collected per skill name. -/
def probe_many (skills : List (String × ProbeOutcome)) :
    List (String × (Bool × String)) :=
  skills.map (fun s => (s.1, check_updates_available s.2))

/-! ## Reinstallation (idempotence) infrastructure -/

/-- Every platform's per-skill target location is safe to re-sync: it holds
an owned symlink to the canonical path, or nothing that `Path.exists()` can
see. -/
def SafeTargets (fs : Fs) (repoPath : Path) (platforms : List PlatformInfo) : Prop :=
  ∀ pl ∈ platforms, fs pl.target = .link repoPath ∨ pathExists fs pl.target = false

/-- Well-formedness of an install invocation, as produced by the real
scripts: platform display names are never the literal repo key; every
per-skill platform target path differs from the canonical path and from the
source path (platform roots, the central repo and the source are distinct
directory trees); the canonical entry and the (resolved) source entry are
not themselves symlinks; an archive or git source path is never the
canonical path (archives carry a .skill suffix, git sources are temporary
clone directories); and a git clone actually produced content. -/
structure ArgsWf (a : InstallArgs) (fs0 : Fs) : Prop where
  names : ∀ pl ∈ a.platforms, pl.name ≠ "repo"
  tgtRepo : ∀ pl ∈ a.platforms, pl.target ≠ a.repoSkill
  tgtSrc : ∀ pl ∈ a.platforms, pl.target ≠ a.source
  repoNoLink : ∀ t, fs0 a.repoSkill ≠ .link t
  srcNoLink : ∀ t, fs0 a.source ≠ .link t
  srcKind : a.kind = .skillArchive ∨ a.kind = .gitClone → a.source ≠ a.repoSkill
  gitSrc : a.kind = .gitClone → ∃ c, fs0 a.source = .node c

/-- What a completed install run guarantees about the resulting state, in
the normal case: the canonical entry is a real directory with content `c`;
a (non-self) plain-directory source and an archive source survive with the
same content fingerprint; every platform selected for sync (and found in
the registry) holds an owned symlink; in the self-install case every
platform location is safe; and the ledger entry records the canonical
source path together with a target list that is valid on disk and contains
every selected available target. -/
structure PostNormal (a : InstallArgs) (s1 : SysState) (c : Nat) : Prop where
  repoDir : s1.fs a.repoSkill = .node c
  srcDir : a.kind = .plainDir → a.source ≠ a.repoSkill → s1.fs a.source = .node c
  srcArch : a.kind = .skillArchive → s1.fs a.source = .node c
  selLinked : ∀ pid ∈ a.selection, ∀ pl,
      a.platforms.find? (fun q => q.id == pid) = some pl →
      s1.fs pl.target = .link a.repoSkill
  selfSafe : a.kind ≠ .gitClone → a.source = a.repoSkill →
      SafeTargets s1.fs a.repoSkill a.platforms
  ledgerEntry : ∃ v, s1.ledger a.skillName = some ⟨a.repoSkill, v⟩
      ∧ (∀ t ∈ v, existsOrIsLink s1.fs t = true)
      ∧ (∀ pid ∈ a.selection, ∀ pl,
          a.platforms.find? (fun q => q.id == pid) = some pl → pl.target ∈ v)

/-- The degenerate completed state produced by the forced self-install bug
(claim C4): the canonical content — which was also the source — is gone. -/
def PostDegenerate (a : InstallArgs) (s1 : SysState) : Prop :=
  a.kind ≠ .gitClone ∧ pathExists s1.fs a.source = false

/-- Arguments for rerunning the same install: same skill, kind, platforms
and selection, a fresh overwrite decision, and — for a git source — a fresh
temporary clone directory. -/
def rerunArgs (a : InstallArgs) (d2 : Bool) (src2 : Path) : InstallArgs :=
  ⟨a.skillName, if a.kind = .gitClone then src2 else a.source, a.kind,
   a.repoSkill, a.platforms, d2, a.selection⟩

/-- The state the rerun starts from: for a git source the remote is
re-cloned (content `c2`) into the fresh temporary directory. -/
def rerunState (a : InstallArgs) (s1 : SysState) (src2 : Path) (c2 : Nat) :
    SysState :=
  if a.kind = .gitClone then ⟨setEntry s1.fs src2 (.node c2), s1.ledger⟩ else s1

/-! ## Concrete states for counterexamples and witnesses -/

/-- Claim C1 counterexample state: the Claude platform location holds a
broken symlink — its stored target `~/.skill_repo/old` does not exist. -/
def c1Fs : Fs :=
  fun p => if p = "~/.claude/skills/foo" then .link "~/.skill_repo/old" else .absent

/-- Witness state for C1: a real directory occupies the platform location. -/
def c1wFs : Fs := fun p => if p = "~/.claude/skills/bar" then .node 5 else .absent

/-- Witness state for C2: the skill is already in the repository and the
source is an external directory, so the conflict set is nonempty. -/
def c2Fs : Fs := fun p =>
  if p = "~/.skill_repo/foo" then .node 1
  else if p = "/src/foo" then .node 2
  else .absent

def c2Args : InstallArgs :=
  ⟨"foo", "/src/foo", .plainDir, "~/.skill_repo/foo",
   [⟨"claude", "Claude Code", "~/.claude/skills/foo"⟩], false, ["claude"]⟩

/-- State for C3's counterexample: a fresh external directory source, one
available platform, nothing installed yet. -/
def c3Fs : Fs := fun p => if p = "/src/foo" then .node 7 else .absent

def c3Args : InstallArgs :=
  ⟨"foo", "/src/foo", .plainDir, "~/.skill_repo/foo",
   [⟨"claude", "Claude Code", "~/.claude/skills/foo"⟩], true, ["claude"]⟩

/-- State for C4's failing input: the skill is canonical (node 7 at the
repository path) and a foreign directory occupies the Claude platform
location, so the conflict prompt fires; the source path IS the canonical
path (a reinstall from the repo itself) and the user confirms overwrite. -/
def c4Fs : Fs := fun p =>
  if p = "~/.skill_repo/foo" then .node 7
  else if p = "~/.claude/skills/foo" then .node 9
  else .absent

def c4Args : InstallArgs :=
  ⟨"foo", "~/.skill_repo/foo", .plainDir, "~/.skill_repo/foo",
   [⟨"claude", "Claude Code", "~/.claude/skills/foo"⟩], true, []⟩

/-- A filesystem in which the skill `foo` is present only under the Cursor
platform's global root. -/
def c5Fs : Fs := fun p => if p = "~/.cursor/skills/foo" then .node 1 else .absent

/-- State for C6: the gemini and antigravity locations hold owned symlinks,
the claude location holds a DANGLING symlink, and all three are recorded in
the ledger entry's target list. -/
def c6Fs : Fs := fun p =>
  if p = "~/.gemini/skills/foo" then .link "~/.skill_repo/foo"
  else if p = "~/.claude/skills/foo" then .link "~/.skill_repo/gone"
  else if p = "~/.gemini/antigravity/skills/foo" then .link "~/.skill_repo/foo"
  else if p = "~/.skill_repo/foo" then .node 3
  else .absent

def c6Ledger : Ledger := fun n =>
  if n = "foo" then
    some ⟨"~/.skill_repo/foo",
      ["~/.gemini/skills/foo", "~/.claude/skills/foo",
       "~/.gemini/antigravity/skills/foo"]⟩
  else none

/-! ## Theorems -/

theorem setEntry_same (fs : Fs) (p : Path) (e : Entry) : setEntry fs p e p = e := by
  simp [setEntry]

theorem setEntry_other (fs : Fs) (p q : Path) (e : Entry) (h : q ≠ p) :
    setEntry fs p e q = fs q := by
  simp [setEntry, h]

theorem setEntry_collapse (fs : Fs) (p : Path) (e1 e2 : Entry) :
    setEntry (setEntry fs p e1) p e2 = setEntry fs p e2 := by
  funext q
  by_cases h : q = p <;> simp [setEntry, h]

theorem setEntry_id (fs : Fs) (p : Path) (e : Entry) (h : fs p = e) :
    setEntry fs p e = fs := by
  funext q
  by_cases hq : q = p
  · rw [hq]; rw [setEntry_same, h]
  · exact setEntry_other fs p q e hq

theorem pathExists_node (fs : Fs) (p : Path) (c : Nat) (h : fs p = .node c) :
    pathExists fs p = true := by
  simp [pathExists, resolvePath, entryIsReal, h]

theorem pathExists_absent (fs : Fs) (p : Path) (h : fs p = .absent) :
    pathExists fs p = false := by
  simp [pathExists, resolvePath, entryIsReal, h]

theorem pathExists_link (fs : Fs) (p t : Path) (h : fs p = .link t) :
    pathExists fs p = entryIsReal (fs t) := by
  simp [pathExists, resolvePath, h]

theorem resolvePath_not_link (fs : Fs) (p : Path) (h : ∀ t, fs p ≠ .link t) :
    resolvePath fs p = p := by
  unfold resolvePath
  cases hp : fs p with
  | link t => exact absurd hp (h t)
  | absent => rfl
  | node c => rfl

theorem entry_of_not_exists (fs : Fs) (p : Path)
    (hex : pathExists fs p = false) (hnl : ∀ t, fs p ≠ .link t) :
    fs p = .absent := by
  cases hp : fs p with
  | absent => rfl
  | node c => rw [pathExists_node fs p c hp] at hex; cases hex
  | link t => exact absurd hp (hnl t)

theorem node_of_exists (fs : Fs) (p : Path)
    (hex : pathExists fs p = true) (hnl : ∀ t, fs p ≠ .link t) :
    ∃ c, fs p = .node c := by
  cases hp : fs p with
  | node c => exact ⟨c, rfl⟩
  | absent => rw [pathExists_absent fs p hp] at hex; cases hex
  | link t => exact absurd hp (hnl t)

theorem safe_set_absent (fs : Fs) (repoPath p0 : Path)
    (platforms : List PlatformInfo)
    (hsafe : SafeTargets fs repoPath platforms) :
    SafeTargets (setEntry fs p0 .absent) repoPath platforms := by
  intro pl hpl
  by_cases ht : pl.target = p0
  · right
    rw [ht]
    exact pathExists_absent _ _ (setEntry_same fs p0 .absent)
  · have he : setEntry fs p0 .absent pl.target = fs pl.target :=
      setEntry_other fs p0 pl.target .absent ht
    rcases hsafe pl hpl with h | h
    · left; rw [he, h]
    · right
      cases hp : fs pl.target with
      | absent => exact pathExists_absent _ _ (by rw [he, hp])
      | node c => rw [pathExists_node fs pl.target c hp] at h; cases h
      | link u =>
          rw [pathExists_link fs pl.target u hp] at h
          rw [pathExists_link _ pl.target u (by rw [he, hp])]
          by_cases hu : u = p0
          · rw [hu, setEntry_same]; rfl
          · rw [setEntry_other fs p0 u .absent hu]; exact h

theorem safe_set_link (fs : Fs) (repoPath p0 : Path)
    (platforms : List PlatformInfo)
    (hsafe : SafeTargets fs repoPath platforms) :
    SafeTargets (setEntry fs p0 (.link repoPath)) repoPath platforms := by
  intro pl hpl
  by_cases ht : pl.target = p0
  · left
    rw [ht]
    exact setEntry_same fs p0 (.link repoPath)
  · have he : setEntry fs p0 (.link repoPath) pl.target = fs pl.target :=
      setEntry_other fs p0 pl.target (.link repoPath) ht
    rcases hsafe pl hpl with h | h
    · left; rw [he, h]
    · right
      cases hp : fs pl.target with
      | absent => exact pathExists_absent _ _ (by rw [he, hp])
      | node c => rw [pathExists_node fs pl.target c hp] at h; cases h
      | link u =>
          rw [pathExists_link fs pl.target u hp] at h
          rw [pathExists_link _ pl.target u (by rw [he, hp])]
          by_cases hu : u = p0
          · rw [hu, setEntry_same]; rfl
          · rw [setEntry_other fs p0 u (.link repoPath) hu]; exact h

theorem safe_set_repo_node (fs : Fs) (repoPath : Path) (c : Nat)
    (platforms : List PlatformInfo)
    (htgt : ∀ pl ∈ platforms, pl.target ≠ repoPath)
    (hsafe : SafeTargets fs repoPath platforms) :
    SafeTargets (setEntry fs repoPath (.node c)) repoPath platforms := by
  intro pl hpl
  have ht := htgt pl hpl
  have he : setEntry fs repoPath (.node c) pl.target = fs pl.target :=
    setEntry_other fs repoPath pl.target (.node c) ht
  rcases hsafe pl hpl with h | h
  · left; rw [he, h]
  · cases hp : fs pl.target with
    | absent => right; exact pathExists_absent _ _ (by rw [he, hp])
    | node c2 => rw [pathExists_node fs pl.target c2 hp] at h; cases h
    | link u =>
        by_cases hu : u = repoPath
        · left; rw [he, hp, hu]
        · right
          rw [pathExists_link fs pl.target u hp] at h
          rw [pathExists_link _ pl.target u (by rw [he, hp])]
          rw [setEntry_other fs repoPath u (.node c) hu]
          exact h

/-- Inversion of a successful `create_symlink`: either the skip branch (the
target exists and force is unset), the forced remove-and-recreate branch,
or the fresh-create branch (the entry was absent). -/
theorem create_symlink_ok_inv (fs : Fs) (rp t : Path) (force : Bool)
    (fsx : Fs) (b : Bool)
    (h : create_symlink fs rp t force = .ok (fsx, b)) :
    (fsx = fs ∧ b = false ∧ pathExists fs t = true ∧ force = false)
    ∨ (fsx = setEntry (setEntry fs t .absent) t (.link rp) ∧ b = true
        ∧ pathExists fs t = true ∧ force = true)
    ∨ (fsx = setEntry fs t (.link rp) ∧ b = true ∧ fs t = .absent) := by
  unfold create_symlink at h
  by_cases hex : pathExists fs t = true
  · rw [if_pos hex] at h
    cases force with
    | false =>
        simp only [Bool.not_false, if_true] at h
        injection h with h1
        injection h1 with ha hb
        exact Or.inl ⟨ha.symm, hb.symm, hex, rfl⟩
    | true =>
        simp only [Bool.not_true, Bool.false_eq_true, if_false] at h
        injection h with h1
        injection h1 with ha hb
        exact Or.inr (Or.inl ⟨ha.symm, hb.symm, hex, rfl⟩)
  · rw [if_neg hex] at h
    cases ht : fs t with
    | absent =>
        rw [ht] at h
        injection h with h1
        injection h1 with ha hb
        exact Or.inr (Or.inr ⟨ha.symm, hb.symm, rfl⟩)
    | node c => rw [ht] at h; cases h
    | link u => rw [ht] at h; cases h

/-- Paths that are no platform's target are untouched by a successful
platform sync. -/
theorem sync_frame (repoPath : Path) (platforms : List PlatformInfo) (force : Bool) :
    ∀ (sel : List String) (fs fs2 : Fs) (k : Nat),
      sync_to_platforms fs repoPath sel platforms force = .ok (fs2, k) →
      ∀ p, (∀ pl ∈ platforms, pl.target ≠ p) → fs2 p = fs p := by
  intro sel
  induction sel with
  | nil =>
      intro fs fs2 k h p hp
      unfold sync_to_platforms at h
      injection h with h1
      injection h1 with ha hb
      rw [← ha]
  | cons pid rest ih =>
      intro fs fs2 k h p hp
      unfold sync_to_platforms at h
      cases hf : platforms.find? (fun q => q.id == pid) with
      | none =>
          simp only [hf] at h
          exact ih fs fs2 k h p hp
      | some pl =>
          simp only [hf] at h
          cases hcs : create_symlink fs repoPath pl.target force with
          | error e => simp only [hcs] at h; exact Except.noConfusion h
          | ok res =>
              obtain ⟨fsx, b⟩ := res
              simp only [hcs] at h
              cases hs2 : sync_to_platforms fsx repoPath rest platforms force with
              | error e => simp only [hs2] at h; exact Except.noConfusion h
              | ok res2 =>
                  obtain ⟨fs3, k2⟩ := res2
                  simp only [hs2] at h
                  injection h with h1
                  injection h1 with ha hb
                  have hmem := List.mem_of_find?_eq_some hf
                  have htp : pl.target ≠ p := hp pl hmem
                  have hx : fsx p = fs p := by
                    rcases create_symlink_ok_inv fs repoPath pl.target force fsx b hcs
                      with ⟨he, _⟩ | ⟨he, _⟩ | ⟨he, _⟩
                    · rw [he]
                    · rw [he, setEntry_other _ _ _ _ (fun hq => htp hq.symm),
                        setEntry_other _ _ _ _ (fun hq => htp hq.symm)]
                    · rw [he, setEntry_other _ _ _ _ (fun hq => htp hq.symm)]
                  rw [← ha, ih fsx fs3 k2 hs2 p hp, hx]

/-- Any path a successful platform sync does change is set to an owned
symlink to the canonical path. -/
theorem sync_frame_or (repoPath : Path) (platforms : List PlatformInfo) (force : Bool) :
    ∀ (sel : List String) (fs fs2 : Fs) (k : Nat),
      sync_to_platforms fs repoPath sel platforms force = .ok (fs2, k) →
      ∀ p, fs2 p = fs p ∨ fs2 p = .link repoPath := by
  intro sel
  induction sel with
  | nil =>
      intro fs fs2 k h p
      unfold sync_to_platforms at h
      injection h with h1
      injection h1 with ha hb
      rw [← ha]
      exact Or.inl rfl
  | cons pid rest ih =>
      intro fs fs2 k h p
      unfold sync_to_platforms at h
      cases hf : platforms.find? (fun q => q.id == pid) with
      | none =>
          simp only [hf] at h
          exact ih fs fs2 k h p
      | some pl =>
          simp only [hf] at h
          cases hcs : create_symlink fs repoPath pl.target force with
          | error e => simp only [hcs] at h; exact Except.noConfusion h
          | ok res =>
              obtain ⟨fsx, b⟩ := res
              simp only [hcs] at h
              cases hs2 : sync_to_platforms fsx repoPath rest platforms force with
              | error e => simp only [hs2] at h; exact Except.noConfusion h
              | ok res2 =>
                  obtain ⟨fs3, k2⟩ := res2
                  simp only [hs2] at h
                  injection h with h1
                  injection h1 with ha hb
                  have hx : fsx p = fs p ∨ fsx p = .link repoPath := by
                    rcases create_symlink_ok_inv fs repoPath pl.target force fsx b hcs
                      with ⟨he, _⟩ | ⟨he, _⟩ | ⟨he, _⟩
                    · rw [he]; exact Or.inl rfl
                    · by_cases hpt : p = pl.target
                      · right; rw [he, hpt, setEntry_same]
                      · left; rw [he, setEntry_other _ _ _ _ hpt,
                          setEntry_other _ _ _ _ hpt]
                    · by_cases hpt : p = pl.target
                      · right; rw [he, hpt, setEntry_same]
                      · left; rw [he, setEntry_other _ _ _ _ hpt]
                  rcases ih fsx fs3 k2 hs2 p with h2 | h2
                  · rw [← ha, h2]; exact hx
                  · right; rw [← ha, h2]

/-- Under force, every platform selected and found in the registry ends up
as an owned symlink after a successful sync. -/
theorem sync_force_linked (repoPath : Path) (platforms : List PlatformInfo) :
    ∀ (sel : List String) (fs fs2 : Fs) (k : Nat),
      sync_to_platforms fs repoPath sel platforms true = .ok (fs2, k) →
      ∀ pid ∈ sel, ∀ pl, platforms.find? (fun q => q.id == pid) = some pl →
        fs2 pl.target = .link repoPath := by
  intro sel
  induction sel with
  | nil =>
      intro fs fs2 k h pid hpid
      cases hpid
  | cons pid0 rest ih =>
      intro fs fs2 k h pid hpid pl hfpl
      unfold sync_to_platforms at h
      cases hf : platforms.find? (fun q => q.id == pid0) with
      | none =>
          simp only [hf] at h
          rcases List.mem_cons.mp hpid with hp0 | hp0
          · rw [hp0] at hfpl
            rw [hfpl] at hf
            cases hf
          · exact ih fs fs2 k h pid hp0 pl hfpl
      | some pl0 =>
          simp only [hf] at h
          cases hcs : create_symlink fs repoPath pl0.target true with
          | error e => simp only [hcs] at h; exact Except.noConfusion h
          | ok res =>
              obtain ⟨fsx, b⟩ := res
              simp only [hcs] at h
              cases hs2 : sync_to_platforms fsx repoPath rest platforms true with
              | error e => simp only [hs2] at h; exact Except.noConfusion h
              | ok res2 =>
                  obtain ⟨fs3, k2⟩ := res2
                  simp only [hs2] at h
                  injection h with h1
                  injection h1 with ha hb
                  rcases List.mem_cons.mp hpid with hp0 | hp0
                  · have hpl0 : pl = pl0 := by
                      rw [hp0] at hfpl
                      rw [hfpl] at hf
                      exact Option.some.inj hf
                    have hxt : fsx pl0.target = .link repoPath := by
                      rcases create_symlink_ok_inv fs repoPath pl0.target true fsx b hcs
                        with ⟨_, _, _, hfr⟩ | ⟨he, _⟩ | ⟨he, _⟩
                      · cases hfr
                      · rw [he, setEntry_same]
                      · rw [he, setEntry_same]
                    rcases sync_frame_or repoPath platforms true rest fsx fs3 k2 hs2
                        pl0.target with h2 | h2
                    · rw [← ha, hpl0, h2, hxt]
                    · rw [← ha, hpl0, h2]
                  · rw [← ha]
                    exact ih fsx fs3 k2 hs2 pid hp0 pl hfpl

/-- Without force, a successful sync over safe targets keeps the targets
safe and links every selected available platform. -/
theorem sync_noforce (repoPath : Path) (platforms : List PlatformInfo)
    (htgt : ∀ pl ∈ platforms, pl.target ≠ repoPath) :
    ∀ (sel : List String) (fs fs2 : Fs) (k : Nat) (c : Nat),
      sync_to_platforms fs repoPath sel platforms false = .ok (fs2, k) →
      fs repoPath = .node c →
      SafeTargets fs repoPath platforms →
      SafeTargets fs2 repoPath platforms
      ∧ (∀ pid ∈ sel, ∀ pl, platforms.find? (fun q => q.id == pid) = some pl →
          fs2 pl.target = .link repoPath)
      ∧ fs2 repoPath = .node c := by
  intro sel
  induction sel with
  | nil =>
      intro fs fs2 k c h hrepo hsafe
      unfold sync_to_platforms at h
      injection h with h1
      injection h1 with ha hb
      rw [← ha]
      exact ⟨hsafe, fun pid hpid => absurd hpid (List.not_mem_nil pid), hrepo⟩
  | cons pid0 rest ih =>
      intro fs fs2 k c h hrepo hsafe
      unfold sync_to_platforms at h
      cases hf : platforms.find? (fun q => q.id == pid0) with
      | none =>
          simp only [hf] at h
          rcases ih fs fs2 k c h hrepo hsafe with ⟨hs1, hs2, hs3⟩
          refine ⟨hs1, ?_, hs3⟩
          intro pid hpid pl hfpl
          rcases List.mem_cons.mp hpid with hp0 | hp0
          · rw [hp0] at hfpl; rw [hfpl] at hf; cases hf
          · exact hs2 pid hp0 pl hfpl
      | some pl0 =>
          simp only [hf] at h
          have hmem0 := List.mem_of_find?_eq_some hf
          have hne0 : repoPath ≠ pl0.target := fun hq => htgt pl0 hmem0 hq.symm
          rcases hsafe pl0 hmem0 with hown | hnex
          · -- already an owned symlink: the step skips
            have hex : pathExists fs pl0.target = true := by
              rw [pathExists_link fs pl0.target repoPath hown, hrepo]
              rfl
            have hcs : create_symlink fs repoPath pl0.target false = .ok (fs, false) := by
              unfold create_symlink
              rw [if_pos hex]
              rfl
            simp only [hcs] at h
            cases hs2 : sync_to_platforms fs repoPath rest platforms false with
            | error e => simp only [hs2] at h; exact Except.noConfusion h
            | ok res2 =>
                obtain ⟨fs3, k2⟩ := res2
                simp only [hs2] at h
                injection h with h1
                injection h1 with ha hb
                rcases ih fs fs3 k2 c hs2 hrepo hsafe with ⟨hq1, hq2, hq3⟩
                rw [← ha]
                refine ⟨hq1, ?_, hq3⟩
                intro pid hpid pl hfpl
                rcases List.mem_cons.mp hpid with hp0 | hp0
                · have hpl0 : pl = pl0 := by
                    rw [hp0] at hfpl
                    rw [hfpl] at hf
                    exact Option.some.inj hf
                  rcases sync_frame_or repoPath platforms false rest fs fs3 k2 hs2
                      pl.target with h2 | h2
                  · rw [h2, hpl0, hown]
                  · exact h2
                · exact hq2 pid hp0 pl hfpl
          · -- the location does not exist: fresh create (or an error on a
            -- broken symlink, which contradicts success)
            cases hpl0 : fs pl0.target with
            | node c2 =>
                rw [pathExists_node fs pl0.target c2 hpl0] at hnex
                cases hnex
            | link u =>
                have hcs : create_symlink fs repoPath pl0.target false
                    = .error "FileExistsError" := by
                  unfold create_symlink
                  rw [if_neg (by simp [hnex]), hpl0]
                simp only [hcs] at h
                exact Except.noConfusion h
            | absent =>
                have hcs : create_symlink fs repoPath pl0.target false
                    = .ok (setEntry fs pl0.target (.link repoPath), true) := by
                  unfold create_symlink
                  rw [if_neg (by simp [hnex]), hpl0]
                simp only [hcs] at h
                have hrepo2 : setEntry fs pl0.target (.link repoPath) repoPath
                    = .node c := by
                  rw [setEntry_other _ _ _ _ hne0]
                  exact hrepo
                have hsafe2 := safe_set_link fs repoPath pl0.target platforms hsafe
                cases hs2 : sync_to_platforms (setEntry fs pl0.target (.link repoPath))
                    repoPath rest platforms false with
                | error e => simp only [hs2] at h; exact Except.noConfusion h
                | ok res2 =>
                    obtain ⟨fs3, k2⟩ := res2
                    simp only [hs2] at h
                    injection h with h1
                    injection h1 with ha hb
                    rcases ih _ fs3 k2 c hs2 hrepo2 hsafe2 with ⟨hq1, hq2, hq3⟩
                    rw [← ha]
                    refine ⟨hq1, ?_, hq3⟩
                    intro pid hpid pl hfpl
                    rcases List.mem_cons.mp hpid with hp0 | hp0
                    · have hpl0e : pl = pl0 := by
                        rw [hp0] at hfpl
                        rw [hfpl] at hf
                        exact Option.some.inj hf
                      rcases sync_frame_or repoPath platforms false rest _ fs3 k2 hs2
                          pl.target with h2 | h2
                      · rw [h2, hpl0e, setEntry_same]
                      · exact h2
                    · exact hq2 pid hp0 pl hfpl

/-- When every selected available platform already holds an owned symlink
and the canonical entry is real, an unforced sync is a pure no-op: every
location is skipped and zero links are created. -/
theorem sync_all_owned (repoPath : Path) (platforms : List PlatformInfo) (c : Nat) :
    ∀ (sel : List String) (fs : Fs),
      fs repoPath = .node c →
      (∀ pid ∈ sel, ∀ pl, platforms.find? (fun q => q.id == pid) = some pl →
          fs pl.target = .link repoPath) →
      sync_to_platforms fs repoPath sel platforms false = .ok (fs, 0) := by
  intro sel
  induction sel with
  | nil => intro fs hrepo hsel; rfl
  | cons pid0 rest ih =>
      intro fs hrepo hsel
      cases hf : platforms.find? (fun q => q.id == pid0) with
      | none =>
          have hrest := ih fs hrepo
            (fun pid hpid => hsel pid (List.mem_cons_of_mem pid0 hpid))
          simp only [sync_to_platforms, hf]
          exact hrest
      | some pl0 =>
          have hown : fs pl0.target = .link repoPath :=
            hsel pid0 (List.mem_cons_self pid0 rest) pl0 hf
          have hex : pathExists fs pl0.target = true := by
            rw [pathExists_link fs pl0.target repoPath hown, hrepo]
            rfl
          have hcs : create_symlink fs repoPath pl0.target false = .ok (fs, false) := by
            unfold create_symlink
            rw [if_pos hex]
            rfl
          have hrest := ih fs hrepo
            (fun pid hpid => hsel pid (List.mem_cons_of_mem pid0 hpid))
          simp only [sync_to_platforms, hf, hcs, hrest]
          rfl

/-- When every selected available platform already holds an owned symlink
and the canonical entry is real, a FORCED sync recreates each link in place
and changes nothing. -/
theorem sync_all_owned_force (repoPath : Path) (platforms : List PlatformInfo)
    (c : Nat) :
    ∀ (sel : List String) (fs : Fs),
      fs repoPath = .node c →
      (∀ pid ∈ sel, ∀ pl, platforms.find? (fun q => q.id == pid) = some pl →
          fs pl.target = .link repoPath) →
      ∃ k, sync_to_platforms fs repoPath sel platforms true = .ok (fs, k) := by
  intro sel
  induction sel with
  | nil => intro fs hrepo hsel; exact ⟨0, rfl⟩
  | cons pid0 rest ih =>
      intro fs hrepo hsel
      cases hf : platforms.find? (fun q => q.id == pid0) with
      | none =>
          obtain ⟨k2, hk2⟩ := ih fs hrepo
            (fun pid hpid => hsel pid (List.mem_cons_of_mem pid0 hpid))
          refine ⟨k2, ?_⟩
          simp only [sync_to_platforms, hf]
          exact hk2
      | some pl0 =>
          have hown : fs pl0.target = .link repoPath :=
            hsel pid0 (List.mem_cons_self pid0 rest) pl0 hf
          have hex : pathExists fs pl0.target = true := by
            rw [pathExists_link fs pl0.target repoPath hown, hrepo]
            rfl
          have hfs : setEntry (setEntry fs pl0.target .absent) pl0.target
              (.link repoPath) = fs := by
            rw [setEntry_collapse]
            exact setEntry_id fs pl0.target (.link repoPath) hown
          have hcs : create_symlink fs repoPath pl0.target true = .ok (fs, true) := by
            unfold create_symlink
            rw [if_pos hex]
            simp only [Bool.not_true, Bool.false_eq_true, if_false]
            rw [hfs]
          obtain ⟨k2, hk2⟩ :=
            ih fs hrepo (fun pid hpid => hsel pid (List.mem_cons_of_mem pid0 hpid))
          refine ⟨1 + k2, ?_⟩
          simp only [sync_to_platforms, hf, hcs, hk2]
          simp

theorem filter_eq_nil_of_none {α : Type} (p : α → Bool) :
    ∀ l : List α, (∀ a ∈ l, p a = false) → l.filter p = [] := by
  intro l
  induction l with
  | nil => intro hl; rfl
  | cons a l ih =>
      intro hl
      have ha : p a = false := hl a (List.mem_cons_self a l)
      simp only [List.filter_cons, ha]
      exact ih (fun b hb => hl b (List.mem_cons_of_mem a hb))

theorem filter_eq_self_of_all {α : Type} (p : α → Bool) :
    ∀ l : List α, (∀ a ∈ l, p a = true) → l.filter p = l := by
  intro l
  induction l with
  | nil => intro hl; rfl
  | cons a l ih =>
      intro hl
      have ha : p a = true := hl a (List.mem_cons_self a l)
      simp only [List.filter_cons, ha, if_true]
      rw [ih (fun b hb => hl b (List.mem_cons_of_mem a hb))]

theorem repoRemove_noforce (fs : Fs) (repoSkill : Path) :
    repoRemove fs repoSkill false = fs := by
  unfold repoRemove
  rw [Bool.and_false]
  rfl

theorem repoRemove_force (fs : Fs) (repoSkill : Path)
    (h : pathExists fs repoSkill = true) :
    repoRemove fs repoSkill true = setEntry fs repoSkill .absent := by
  unfold repoRemove
  rw [h]
  rfl

theorem repoRemove_force_absent (fs : Fs) (repoSkill : Path)
    (h : pathExists fs repoSkill = false) :
    repoRemove fs repoSkill true = fs := by
  unfold repoRemove
  rw [h]
  rfl

theorem repoRemove_other (fs : Fs) (repoSkill : Path) (force : Bool) (p : Path)
    (h : p ≠ repoSkill) : repoRemove fs repoSkill force p = fs p := by
  unfold repoRemove
  by_cases hc : (pathExists fs repoSkill && force) = true
  · rw [if_pos hc]
    exact setEntry_other fs repoSkill p .absent h
  · rw [if_neg hc]

/-- Re-running the ledger update on a state whose recorded entry is already
valid and covers the selection is the identity on the ledger. -/
theorem update_metadata_stable (fs : Fs) (ledger : Ledger) (skillName : String)
    (sel : List String) (platforms : List PlatformInfo) (repoSkill : Path)
    (v : List Path)
    (hl : ledger skillName = some ⟨repoSkill, v⟩)
    (hvalid : ∀ t ∈ v, existsOrIsLink fs t = true)
    (hsel : ∀ pid ∈ sel, ∀ pl, platforms.find? (fun q => q.id == pid) = some pl →
        pl.target ∈ v) :
    update_sync_metadata fs ledger skillName sel platforms repoSkill = ledger := by
  funext n
  unfold update_sync_metadata
  by_cases hn : n = skillName
  · rw [if_pos hn, hn, hl]
    have hnewmem : ∀ t ∈ (sel.filterMap fun pid =>
        Option.map PlatformInfo.target (platforms.find? (fun pl => pl.id == pid))),
        t ∈ v := by
      intro t ht
      rcases List.mem_filterMap.mp ht with ⟨pid, hpid, hmap⟩
      cases hf : platforms.find? (fun pl => pl.id == pid) with
      | none => rw [hf] at hmap; cases hmap
      | some pl =>
          rw [hf] at hmap
          injection hmap with hmt
          rw [← hmt]
          exact hsel pid hpid pl hf
    have h1 : (sel.filterMap fun pid =>
        Option.map PlatformInfo.target (platforms.find? (fun pl => pl.id == pid))).filter
          (fun t => decide (t ∉ v)) = [] :=
      filter_eq_nil_of_none _ _ (fun t ht => by simp [hnewmem t ht])
    simp only [Option.map_some', Option.getD_some]
    rw [h1, List.append_nil, filter_eq_self_of_all _ v hvalid]
  · rw [if_neg hn]

theorem setEntry_comm (fs : Fs) (p q : Path) (e1 e2 : Entry) (h : p ≠ q) :
    setEntry (setEntry fs p e1) q e2 = setEntry (setEntry fs q e2) p e1 := by
  funext x
  by_cases hq : x = q
  · rw [hq, setEntry_same, setEntry_other _ _ _ _ (fun hc => h hc.symm), setEntry_same]
  · rw [setEntry_other _ _ _ _ hq]
    by_cases hp : x = p
    · rw [hp, setEntry_same, setEntry_same]
    · rw [setEntry_other _ _ _ _ hp, setEntry_other _ _ _ _ hp,
        setEntry_other _ _ _ _ hq]

/-- A forced removal of a non-symlink canonical entry always leaves the
entry absent (either it existed and was removed, or it was absent
already). -/
theorem repoRemove_force_eq_set (fs : Fs) (repoSkill : Path)
    (hnl : ∀ t, fs repoSkill ≠ .link t) :
    repoRemove fs repoSkill true = setEntry fs repoSkill .absent := by
  by_cases hex : pathExists fs repoSkill = true
  · exact repoRemove_force fs repoSkill hex
  · rw [repoRemove_force_absent fs repoSkill (Bool.not_eq_true _ ▸ hex)]
    rw [setEntry_id fs repoSkill .absent
      (entry_of_not_exists fs repoSkill (Bool.not_eq_true _ ▸ hex) hnl)]

/-- Membership of a platform's pair in the conflict list is exactly the
code's guard: the location exists (following symlinks) and is not a symlink
whose resolution equals the resolution of the canonical repository path. -/
theorem mem_check_conflicts_platform (fs : Fs) (repoSkill : Path)
    (platforms : List PlatformInfo) (pl : PlatformInfo)
    (hmem : pl ∈ platforms) (hname : pl.name ≠ "repo") :
    (pl.name, pl.target) ∈ check_conflicts fs repoSkill platforms
      ↔ (pathExists fs pl.target = true
          ∧ ¬(isSymlink fs pl.target = true
               ∧ resolvePath fs pl.target = resolvePath fs repoSkill)) := by
  constructor
  · intro h
    unfold check_conflicts at h
    rcases List.mem_append.mp h with h | h
    · exfalso
      by_cases hex : pathExists fs repoSkill = true
      · rw [if_pos hex] at h
        simp at h
        exact hname h.1
      · rw [if_neg hex] at h
        simp at h
    · rcases List.mem_filterMap.mp h with ⟨q, _, hfq⟩
      by_cases hex : pathExists fs q.target = true
      · by_cases hown : (isSymlink fs q.target
            && (resolvePath fs q.target == resolvePath fs repoSkill)) = true
        · simp [hex, hown] at hfq
        · simp only [hex, if_true, Bool.not_eq_true] at hfq
          rw [if_neg (by simp [hown])] at hfq
          have h1 : q.name = pl.name := congrArg Prod.fst (Option.some.inj hfq)
          have h2 : q.target = pl.target := congrArg Prod.snd (Option.some.inj hfq)
          rw [h2] at hex hown
          refine ⟨hex, ?_⟩
          rintro ⟨hsym, hres⟩
          apply hown
          rw [hsym, hres]
          simp
      · rw [if_neg hex] at hfq
        simp at hfq
  · rintro ⟨hex, hown⟩
    unfold check_conflicts
    refine List.mem_append.mpr (Or.inr (List.mem_filterMap.mpr ⟨pl, hmem, ?_⟩))
    have hcond : (isSymlink fs pl.target
        && (resolvePath fs pl.target == resolvePath fs repoSkill)) = false := by
      by_cases hsym : isSymlink fs pl.target = true
      · have hne : resolvePath fs pl.target ≠ resolvePath fs repoSkill :=
          fun hr => hown ⟨hsym, hr⟩
        simp [hsym, hne]
      · simp only [Bool.not_eq_true] at hsym
        simp [hsym]
    rw [if_pos hex, if_neg (by simp [hcond])]

/-- An empty (post-filter) conflict set means every platform location is
safe: an owned symlink or invisible to Path.exists(). -/
theorem safe_of_no_conflicts (fs : Fs) (a : InstallArgs)
    (hnames : ∀ pl ∈ a.platforms, pl.name ≠ "repo")
    (hrpnl : ∀ t, fs a.repoSkill ≠ .link t)
    (hconf : filteredConflicts fs a = []) :
    SafeTargets fs a.repoSkill a.platforms := by
  intro pl hpl
  by_cases hex : pathExists fs pl.target = true
  · left
    by_contra hne
    have hcond : ¬(isSymlink fs pl.target = true
        ∧ resolvePath fs pl.target = resolvePath fs a.repoSkill) := by
      rintro ⟨hsym, hres⟩
      rw [resolvePath_not_link fs a.repoSkill hrpnl] at hres
      cases hp : fs pl.target with
      | absent => simp [isSymlink, hp] at hsym
      | node c => simp [isSymlink, hp] at hsym
      | link t =>
          have : t = a.repoSkill := by
            rw [← hres]
            simp [resolvePath, hp]
          exact hne (by rw [hp, this])
    have hmem : (pl.name, pl.target) ∈ check_conflicts fs a.repoSkill a.platforms :=
      (mem_check_conflicts_platform fs a.repoSkill a.platforms pl hpl
        (hnames pl hpl)).mpr ⟨hex, hcond⟩
    have hmemf : (pl.name, pl.target) ∈ filteredConflicts fs a := by
      unfold filteredConflicts
      by_cases hsc : a.kind ≠ .gitClone ∧ a.source = a.repoSkill
      · rw [if_pos hsc]
        exact List.mem_filter.mpr ⟨hmem, by simp [hnames pl hpl]⟩
      · rw [if_neg hsc]
        exact hmem
    rw [hconf] at hmemf
    exact List.not_mem_nil _ hmemf
  · right
    exact Bool.not_eq_true _ ▸ hex

/-- The ledger entry written by `update_sync_metadata` records the canonical
source, only targets that exist or are symlinks, and every selected
available platform target. -/
theorem update_metadata_post (fs2 : Fs) (ledger : Ledger) (skillName : String)
    (sel : List String) (platforms : List PlatformInfo) (repoSkill : Path)
    (hlinked : ∀ pid ∈ sel, ∀ pl,
        platforms.find? (fun q => q.id == pid) = some pl →
        fs2 pl.target = .link repoSkill) :
    ∃ v, update_sync_metadata fs2 ledger skillName sel platforms repoSkill skillName
          = some ⟨repoSkill, v⟩
      ∧ (∀ t ∈ v, existsOrIsLink fs2 t = true)
      ∧ (∀ pid ∈ sel, ∀ pl, platforms.find? (fun q => q.id == pid) = some pl →
          pl.target ∈ v) := by
  refine ⟨_, by unfold update_sync_metadata; rw [if_pos rfl], ?_, ?_⟩
  · intro t ht
    exact List.of_mem_filter ht
  · intro pid hpid pl hf
    apply List.mem_filter.mpr
    constructor
    · by_cases hcur : pl.target
          ∈ (Option.map LedgerEntry.targets (ledger skillName)).getD []
      · exact List.mem_append.mpr (Or.inl hcur)
      · refine List.mem_append.mpr (Or.inr (List.mem_filter.mpr ⟨?_, by simp [hcur]⟩))
        exact List.mem_filterMap.mpr ⟨pid, hpid, by rw [hf]; rfl⟩
    · unfold existsOrIsLink isSymlink
      rw [hlinked pid hpid pl hf]
      simp

/-- Inversion of a completed run of install_skill.py's main: the source
existed (for non-git sources), the repo install and the platform sync both
succeeded, and the final state is the synced filesystem (with the git temp
clone cleaned up) plus the updated ledger. -/
theorem install_main_completed (s0 : SysState) (a : InstallArgs) (s1 : SysState)
    (n : Nat) (h : install_main s0 a = (s1, .completed n)) :
    (a.kind ≠ .gitClone → pathExists s0.fs a.source = true)
    ∧ ∃ fs1 repoPath fs2,
        install_to_repo s0.fs a.source a.repoSkill
            (decide (filteredConflicts s0.fs a ≠ [])) a.kind = .ok (fs1, repoPath)
        ∧ sync_to_platforms fs1 repoPath a.selection a.platforms
            (decide (filteredConflicts s0.fs a ≠ [])) = .ok (fs2, n)
        ∧ s1 = ⟨cleanupTemp a fs2, update_sync_metadata fs2 s0.ledger a.skillName
              a.selection a.platforms a.repoSkill⟩ := by
  unfold install_main at h
  by_cases h1 : a.kind ≠ .gitClone ∧ ¬ pathExists s0.fs a.source
  · rw [if_pos h1] at h
    injection h with ha hb
    cases hb
  · rw [if_neg h1] at h
    by_cases h2 : filteredConflicts s0.fs a ≠ [] ∧ a.decision = false
    · rw [if_pos h2] at h
      injection h with ha hb
      cases hb
    · rw [if_neg h2] at h
      refine ⟨?_, ?_⟩
      · intro hk
        by_cases hex : pathExists s0.fs a.source = true
        · exact hex
        · exact absurd ⟨hk, hex⟩ h1
      · cases hi : install_to_repo s0.fs a.source a.repoSkill
            (decide (filteredConflicts s0.fs a ≠ [])) a.kind with
        | error res =>
            obtain ⟨e, fsE⟩ := res
            simp only [hi] at h
            injection h with ha hb
            cases hb
        | ok res =>
            obtain ⟨fs1, repoPath⟩ := res
            simp only [hi] at h
            cases hs : sync_to_platforms fs1 repoPath a.selection a.platforms
                (decide (filteredConflicts s0.fs a ≠ [])) with
            | error res2 =>
                obtain ⟨e, fsE⟩ := res2
                simp only [hs] at h
                injection h with ha hb
                cases hb
            | ok res2 =>
                obtain ⟨fs2, links⟩ := res2
                simp only [hs] at h
                injection h with ha hb
                injection hb with hn
                refine ⟨fs1, repoPath, fs2, rfl, ?_, ha.symm⟩
                rw [← hn]
                exact hs

/-- The common tail of a completed install run: given the post-copy
filesystem facts, a successful platform sync and ledger update yield the
PostNormal invariant for the final state. -/
theorem run_tail (a : InstallArgs) (led : Ledger) (fs1 fs2 : Fs) (n c : Nat)
    (F : Bool)
    (htgtRepo : ∀ pl ∈ a.platforms, pl.target ≠ a.repoSkill)
    (htgtSrc : ∀ pl ∈ a.platforms, pl.target ≠ a.source)
    (hs : sync_to_platforms fs1 a.repoSkill a.selection a.platforms F = .ok (fs2, n))
    (hrepo1 : fs1 a.repoSkill = .node c)
    (hsafe1 : F = false → SafeTargets fs1 a.repoSkill a.platforms)
    (hsrcNode : a.kind ≠ .gitClone → fs1 a.source = .node c)
    (hsrcGit : a.kind = .gitClone → fs1 a.source = .absent)
    (hselfF : a.kind ≠ .gitClone → a.source = a.repoSkill → F = false) :
    PostNormal a ⟨cleanupTemp a fs2,
      update_sync_metadata fs2 led a.skillName a.selection a.platforms a.repoSkill⟩
      c := by
  have hrepo2 : fs2 a.repoSkill = .node c := by
    rw [sync_frame a.repoSkill a.platforms F a.selection fs1 fs2 n hs
      a.repoSkill htgtRepo]
    exact hrepo1
  have hsrc2 : fs2 a.source = fs1 a.source :=
    sync_frame a.repoSkill a.platforms F a.selection fs1 fs2 n hs a.source htgtSrc
  have hclean : cleanupTemp a fs2 = fs2 := by
    unfold cleanupTemp
    by_cases hk : a.kind = .gitClone
    · rw [if_pos hk]
      exact setEntry_id fs2 a.source .absent (by rw [hsrc2]; exact hsrcGit hk)
    · rw [if_neg hk]
  have hlinked : ∀ pid ∈ a.selection, ∀ pl,
      a.platforms.find? (fun q => q.id == pid) = some pl →
      fs2 pl.target = .link a.repoSkill := by
    cases F with
    | true => exact sync_force_linked a.repoSkill a.platforms a.selection fs1 fs2 n hs
    | false =>
        exact (sync_noforce a.repoSkill a.platforms htgtRepo a.selection fs1 fs2 n c hs
          hrepo1 (hsafe1 rfl)).2.1
  obtain ⟨v, hv1, hv2, hv3⟩ := update_metadata_post fs2 led a.skillName a.selection
    a.platforms a.repoSkill hlinked
  refine ⟨?_, ?_, ?_, ?_, ?_, ?_⟩
  · show cleanupTemp a fs2 a.repoSkill = .node c
    rw [hclean]
    exact hrepo2
  · intro hk hne
    show cleanupTemp a fs2 a.source = .node c
    rw [hclean, hsrc2]
    exact hsrcNode (by rw [hk]; simp)
  · intro hk
    show cleanupTemp a fs2 a.source = .node c
    rw [hclean, hsrc2]
    exact hsrcNode (by rw [hk]; simp)
  · intro pid hpid pl hf
    show cleanupTemp a fs2 pl.target = .link a.repoSkill
    rw [hclean]
    exact hlinked pid hpid pl hf
  · intro hk hsrp
    have hF := hselfF hk hsrp
    have hs2 := hs
    rw [hF] at hs2
    have hsafe := (sync_noforce a.repoSkill a.platforms htgtRepo a.selection fs1 fs2
      n c hs2 hrepo1 (hsafe1 hF)).1
    show SafeTargets (cleanupTemp a fs2) a.repoSkill a.platforms
    rw [hclean]
    exact hsafe
  · refine ⟨v, hv1, ?_, hv3⟩
    show ∀ t ∈ v, existsOrIsLink (cleanupTemp a fs2) t = true
    rw [hclean]
    exact hv2

theorem filterMap_eq_nil_of_none {α β : Type} (f : α → Option β) :
    ∀ l : List α, (∀ a ∈ l, f a = none) → l.filterMap f = [] := by
  intro l
  induction l with
  | nil => intro hl; rfl
  | cons a l ih =>
      intro hl
      have ha : f a = none := hl a (List.mem_cons_self a l)
      simp only [List.filterMap_cons, ha]
      exact ih (fun b hb => hl b (List.mem_cons_of_mem a hb))

/-- Forward construction of install_main's error exit on a missing
source. -/
theorem install_main_noSource (s : SysState) (a : InstallArgs)
    (hc1 : a.kind ≠ .gitClone ∧ ¬ pathExists s.fs a.source) :
    install_main s a = (s, .errored "Path does not exist") := by
  unfold install_main
  rw [if_pos hc1]

/-- Forward construction of install_main's cancelled exit. -/
theorem install_main_cancel (s : SysState) (a : InstallArgs)
    (hc1 : ¬(a.kind ≠ .gitClone ∧ ¬ pathExists s.fs a.source))
    (hc2 : filteredConflicts s.fs a ≠ [] ∧ a.decision = false) :
    install_main s a = (⟨cleanupTemp a s.fs, s.ledger⟩, .cancelled) := by
  unfold install_main
  rw [if_neg hc1, if_pos hc2]

/-- Forward construction of a completed install_main run from its
successful components. -/
theorem install_main_build (s : SysState) (a : InstallArgs) (fs1 fs2 : Fs)
    (repoPath : Path) (k : Nat)
    (hc1 : ¬(a.kind ≠ .gitClone ∧ ¬ pathExists s.fs a.source))
    (hc2 : ¬(filteredConflicts s.fs a ≠ [] ∧ a.decision = false))
    (hi : install_to_repo s.fs a.source a.repoSkill
        (decide (filteredConflicts s.fs a ≠ [])) a.kind = .ok (fs1, repoPath))
    (hs : sync_to_platforms fs1 repoPath a.selection a.platforms
        (decide (filteredConflicts s.fs a ≠ [])) = .ok (fs2, k)) :
    install_main s a = (⟨cleanupTemp a fs2,
      update_sync_metadata fs2 s.ledger a.skillName a.selection a.platforms
        a.repoSkill⟩, .completed k) := by
  unfold install_main
  rw [if_neg hc1, if_neg hc2]
  simp only [hi, hs]

/-- `run_tail` specialised to a post-copy filesystem of the form
`setEntry X repoSkill (node csrc)`, the shape every non-self install
produces. -/
theorem run_tail_set (a : InstallArgs) (led : Ledger) (X fs2 : Fs)
    (n csrc : Nat) (F : Bool)
    (htgtRepo : ∀ pl ∈ a.platforms, pl.target ≠ a.repoSkill)
    (htgtSrc : ∀ pl ∈ a.platforms, pl.target ≠ a.source)
    (hsrp : a.source ≠ a.repoSkill)
    (hs : sync_to_platforms (setEntry X a.repoSkill (.node csrc)) a.repoSkill
        a.selection a.platforms F = .ok (fs2, n))
    (hXsrc : a.kind ≠ .gitClone → X a.source = .node csrc)
    (hXsrcG : a.kind = .gitClone → X a.source = .absent)
    (hXsafe : F = false → SafeTargets X a.repoSkill a.platforms)
    (hnself : ¬(a.kind ≠ .gitClone ∧ a.source = a.repoSkill)) :
    PostNormal a ⟨cleanupTemp a fs2,
      update_sync_metadata fs2 led a.skillName a.selection a.platforms a.repoSkill⟩
      csrc :=
  run_tail a led (setEntry X a.repoSkill (.node csrc)) fs2 n csrc F htgtRepo htgtSrc
    hs (setEntry_same X a.repoSkill (.node csrc))
    (fun hFf => safe_set_repo_node X a.repoSkill csrc a.platforms htgtRepo (hXsafe hFf))
    (fun hk => by rw [setEntry_other _ _ _ _ hsrp]; exact hXsrc hk)
    (fun hk => by rw [setEntry_other _ _ _ _ hsrp]; exact hXsrcG hk)
    (fun h1 h2 => absurd ⟨h1, h2⟩ hnself)

/-- Characterization of a completed install run over well-formed inputs:
the final state satisfies the PostNormal invariant, or — only for a forced
self-install, which the C4 bug lets destroy its own source — the degenerate
state in which the (non-git) source no longer exists. -/
theorem run_characterization (s0 : SysState) (a : InstallArgs) (s1 : SysState)
    (n : Nat) (hwf : ArgsWf a s0.fs)
    (hrun : install_main s0 a = (s1, .completed n)) :
    (∃ c, PostNormal a s1 c) ∨ PostDegenerate a s1 := by
  obtain ⟨hsrcEx, fs1, repoPath, fs2, hi, hs, hs1⟩ :=
    install_main_completed s0 a s1 n hrun
  by_cases hself : a.kind ≠ .gitClone ∧ a.source = a.repoSkill
  · obtain ⟨hkng, hsrp⟩ := hself
    have hkp : a.kind = .plainDir := by
      cases hk : a.kind with
      | plainDir => rfl
      | skillArchive => exact absurd hsrp (hwf.srcKind (Or.inl hk))
      | gitClone => exact absurd hk hkng
    have hexSrc : pathExists s0.fs a.source = true := hsrcEx hkng
    have hexRp : pathExists s0.fs a.repoSkill = true := by
      rw [← hsrp]
      exact hexSrc
    obtain ⟨c0, hrp0⟩ := node_of_exists s0.fs a.repoSkill hexRp hwf.repoNoLink
    by_cases hconf : filteredConflicts s0.fs a = []
    · -- unforced self-install: a pure no-op on the filesystem
      left
      refine ⟨c0, ?_⟩
      have hF : decide (filteredConflicts s0.fs a ≠ []) = false := by simp [hconf]
      rw [hF] at hi hs
      have hinst : install_to_repo s0.fs a.source a.repoSkill false a.kind
          = .ok (s0.fs, a.repoSkill) := by
        unfold install_to_repo
        rw [repoRemove_noforce, hkp]
        simp only [install_copy]
        rw [hsrp, if_pos rfl]
      rw [hinst] at hi
      injection hi with hi1
      injection hi1 with hia hib
      rw [← hia, ← hib] at hs
      rw [hs1]
      exact run_tail a s0.ledger s0.fs fs2 n c0 false hwf.tgtRepo hwf.tgtSrc hs hrp0
        (fun _ => safe_of_no_conflicts s0.fs a hwf.names hwf.repoNoLink hconf)
        (fun _ => by rw [hsrp]; exact hrp0)
        (fun hk => absurd hk hkng)
        (fun _ _ => rfl)
    · -- forced self-install: the C4 bug removes the canonical copy
      right
      have hF : decide (filteredConflicts s0.fs a ≠ []) = true := by simp [hconf]
      rw [hF] at hi hs
      have hinst : install_to_repo s0.fs a.source a.repoSkill true a.kind
          = .ok (setEntry s0.fs a.repoSkill .absent, a.repoSkill) := by
        unfold install_to_repo
        rw [repoRemove_force s0.fs a.repoSkill hexRp, hkp]
        simp only [install_copy]
        rw [hsrp, if_pos rfl]
      rw [hinst] at hi
      injection hi with hi1
      injection hi1 with hia hib
      rw [← hia, ← hib] at hs
      refine ⟨hkng, ?_⟩
      have hfs2rp : fs2 a.repoSkill = .absent := by
        rw [sync_frame a.repoSkill a.platforms true a.selection _ fs2 n hs a.repoSkill
          hwf.tgtRepo]
        exact setEntry_same s0.fs a.repoSkill .absent
      have hclean : cleanupTemp a fs2 = fs2 := by
        unfold cleanupTemp
        rw [if_neg hkng]
      rw [hs1]
      show pathExists (cleanupTemp a fs2) a.source = false
      rw [hclean, hsrp]
      exact pathExists_absent fs2 a.repoSkill hfs2rp
  · -- non-self install
    have hfc : filteredConflicts s0.fs a = check_conflicts s0.fs a.repoSkill a.platforms := by
      unfold filteredConflicts
      rw [if_neg hself]
    have hsrp : a.source ≠ a.repoSkill := by
      cases hk : a.kind with
      | plainDir => exact fun he => hself ⟨by rw [hk]; simp, he⟩
      | skillArchive => exact hwf.srcKind (Or.inl hk)
      | gitClone => exact hwf.srcKind (Or.inr hk)
    obtain ⟨csrc, hsrcN⟩ : ∃ c, s0.fs a.source = .node c := by
      cases hk : a.kind with
      | gitClone => exact hwf.gitSrc hk
      | plainDir =>
          exact node_of_exists s0.fs a.source (hsrcEx (by rw [hk]; simp)) hwf.srcNoLink
      | skillArchive =>
          exact node_of_exists s0.fs a.source (hsrcEx (by rw [hk]; simp)) hwf.srcNoLink
    left
    refine ⟨csrc, ?_⟩
    have hres1 : resolvePath s0.fs a.source = a.source :=
      resolvePath_not_link s0.fs a.source hwf.srcNoLink
    have hres2 : resolvePath s0.fs a.repoSkill = a.repoSkill :=
      resolvePath_not_link s0.fs a.repoSkill hwf.repoNoLink
    by_cases hconf : filteredConflicts s0.fs a = []
    · -- unforced install into an absent canonical slot
      have hF : decide (filteredConflicts s0.fs a ≠ []) = false := by simp [hconf]
      rw [hF] at hi hs
      have hexRp : pathExists s0.fs a.repoSkill = false := by
        cases hb : pathExists s0.fs a.repoSkill with
        | false => rfl
        | true =>
            exfalso
            have hmem : ("repo", a.repoSkill)
                ∈ check_conflicts s0.fs a.repoSkill a.platforms := by
              unfold check_conflicts
              rw [if_pos hb]
              exact List.mem_append.mpr (Or.inl (List.mem_singleton.mpr rfl))
            rw [← hfc, hconf] at hmem
            exact List.not_mem_nil _ hmem
      have hrpAbs : s0.fs a.repoSkill = .absent :=
        entry_of_not_exists s0.fs a.repoSkill hexRp hwf.repoNoLink
      have hsafe0 : SafeTargets s0.fs a.repoSkill a.platforms :=
        safe_of_no_conflicts s0.fs a hwf.names hwf.repoNoLink hconf
      cases hk : a.kind with
      | plainDir =>
          rw [hk] at hi
          have hinst : install_to_repo s0.fs a.source a.repoSkill false .plainDir
              = .ok (setEntry s0.fs a.repoSkill (.node csrc), a.repoSkill) := by
            unfold install_to_repo
            rw [repoRemove_noforce]
            simp only [install_copy]
            rw [hres1, hres2, if_neg hsrp, hsrcN, hrpAbs]
          rw [hinst] at hi
          injection hi with hi1
          injection hi1 with hia hib
          rw [← hia, ← hib] at hs
          rw [hs1]
          exact run_tail_set a s0.ledger s0.fs fs2 n csrc false hwf.tgtRepo hwf.tgtSrc
            hsrp hs (fun _ => hsrcN) (fun hg => absurd hg (by rw [hk]; simp))
            (fun _ => hsafe0) hself
      | skillArchive =>
          rw [hk] at hi
          have hinst : install_to_repo s0.fs a.source a.repoSkill false .skillArchive
              = .ok (setEntry s0.fs a.repoSkill (.node csrc), a.repoSkill) := by
            unfold install_to_repo
            rw [repoRemove_noforce]
            simp only [install_copy]
            rw [hsrcN, hrpAbs]
          rw [hinst] at hi
          injection hi with hi1
          injection hi1 with hia hib
          rw [← hia, ← hib] at hs
          rw [hs1]
          exact run_tail_set a s0.ledger s0.fs fs2 n csrc false hwf.tgtRepo hwf.tgtSrc
            hsrp hs (fun _ => hsrcN) (fun hg => absurd hg (by rw [hk]; simp))
            (fun _ => hsafe0) hself
      | gitClone =>
          rw [hk] at hi
          have hinst : install_to_repo s0.fs a.source a.repoSkill false .gitClone
              = .ok (setEntry (setEntry s0.fs a.source .absent) a.repoSkill
                  (.node csrc), a.repoSkill) := by
            unfold install_to_repo
            rw [repoRemove_noforce]
            simp only [install_copy]
            rw [hres1, hres2, if_neg hsrp, hsrcN]
          rw [hinst] at hi
          injection hi with hi1
          injection hi1 with hia hib
          rw [← hia, ← hib] at hs
          rw [hs1]
          exact run_tail_set a s0.ledger (setEntry s0.fs a.source .absent) fs2 n csrc
            false hwf.tgtRepo hwf.tgtSrc hsrp hs
            (fun hg => absurd hk hg)
            (fun _ => setEntry_same s0.fs a.source .absent)
            (fun _ => safe_set_absent s0.fs a.repoSkill a.source a.platforms hsafe0)
            hself
    · -- forced install: the canonical slot is cleared and recopied
      have hF : decide (filteredConflicts s0.fs a ≠ []) = true := by simp [hconf]
      rw [hF] at hi hs
      have hfsr : repoRemove s0.fs a.repoSkill true = setEntry s0.fs a.repoSkill .absent :=
        repoRemove_force_eq_set s0.fs a.repoSkill hwf.repoNoLink
      have hfsrSrc : setEntry s0.fs a.repoSkill .absent a.source = .node csrc := by
        rw [setEntry_other _ _ _ _ hsrp]
        exact hsrcN
      have hfsrRp : setEntry s0.fs a.repoSkill .absent a.repoSkill = .absent :=
        setEntry_same s0.fs a.repoSkill .absent
      have hres1f : resolvePath (setEntry s0.fs a.repoSkill .absent) a.source
          = a.source := by
        apply resolvePath_not_link
        intro t
        rw [hfsrSrc]
        simp
      have hres2f : resolvePath (setEntry s0.fs a.repoSkill .absent) a.repoSkill
          = a.repoSkill := by
        apply resolvePath_not_link
        intro t
        rw [hfsrRp]
        simp
      cases hk : a.kind with
      | plainDir =>
          rw [hk] at hi
          have hinst : install_to_repo s0.fs a.source a.repoSkill true .plainDir
              = .ok (setEntry s0.fs a.repoSkill (.node csrc), a.repoSkill) := by
            unfold install_to_repo
            rw [hfsr]
            simp only [install_copy]
            rw [hres1f, hres2f, if_neg hsrp, hfsrSrc, hfsrRp]
            show Except.ok (setEntry (setEntry s0.fs a.repoSkill .absent) a.repoSkill
              (.node csrc), a.repoSkill) = _
            rw [setEntry_collapse]
          rw [hinst] at hi
          injection hi with hi1
          injection hi1 with hia hib
          rw [← hia, ← hib] at hs
          rw [hs1]
          exact run_tail_set a s0.ledger s0.fs fs2 n csrc true hwf.tgtRepo hwf.tgtSrc
            hsrp hs (fun _ => hsrcN) (fun hg => absurd hg (by rw [hk]; simp))
            (fun hFf => absurd hFf (by simp)) hself
      | skillArchive =>
          rw [hk] at hi
          have hinst : install_to_repo s0.fs a.source a.repoSkill true .skillArchive
              = .ok (setEntry s0.fs a.repoSkill (.node csrc), a.repoSkill) := by
            unfold install_to_repo
            rw [hfsr]
            simp only [install_copy]
            rw [hfsrSrc, hfsrRp]
            show Except.ok (setEntry (setEntry s0.fs a.repoSkill .absent) a.repoSkill
              (.node csrc), a.repoSkill) = _
            rw [setEntry_collapse]
          rw [hinst] at hi
          injection hi with hi1
          injection hi1 with hia hib
          rw [← hia, ← hib] at hs
          rw [hs1]
          exact run_tail_set a s0.ledger s0.fs fs2 n csrc true hwf.tgtRepo hwf.tgtSrc
            hsrp hs (fun _ => hsrcN) (fun hg => absurd hg (by rw [hk]; simp))
            (fun hFf => absurd hFf (by simp)) hself
      | gitClone =>
          rw [hk] at hi
          have hinst : install_to_repo s0.fs a.source a.repoSkill true .gitClone
              = .ok (setEntry (setEntry s0.fs a.source .absent) a.repoSkill
                  (.node csrc), a.repoSkill) := by
            unfold install_to_repo
            rw [hfsr]
            simp only [install_copy]
            rw [hres1f, hres2f, if_neg hsrp, hfsrSrc]
            show Except.ok (setEntry (setEntry (setEntry s0.fs a.repoSkill .absent)
              a.source .absent) a.repoSkill (.node csrc), a.repoSkill) = _
            rw [setEntry_comm s0.fs a.repoSkill a.source .absent .absent
              (fun hq => hsrp hq.symm), setEntry_collapse]
          rw [hinst] at hi
          injection hi with hi1
          injection hi1 with hia hib
          rw [← hia, ← hib] at hs
          rw [hs1]
          exact run_tail_set a s0.ledger (setEntry s0.fs a.source .absent) fs2 n csrc
            true hwf.tgtRepo hwf.tgtSrc hsrp hs
            (fun hg => absurd hk hg)
            (fun _ => setEntry_same s0.fs a.source .absent)
            (fun hFf => absurd hFf (by simp))
            hself

/-- In the self-install case with safe platform targets, the rerun sees no
conflicts: the repo key is popped and every platform is benign. -/
theorem self_rerun_no_conflicts (fs : Fs) (a2 : InstallArgs) (c : Nat)
    (hk : a2.kind ≠ .gitClone) (hsrp : a2.source = a2.repoSkill)
    (hrepo : fs a2.repoSkill = .node c)
    (hsafe : SafeTargets fs a2.repoSkill a2.platforms) :
    filteredConflicts fs a2 = [] := by
  unfold filteredConflicts
  rw [if_pos ⟨hk, hsrp⟩]
  unfold check_conflicts
  rw [if_pos (pathExists_node fs a2.repoSkill c hrepo)]
  have hplat : (a2.platforms.filterMap (fun pl =>
      if pathExists fs pl.target then
        if isSymlink fs pl.target
            && (resolvePath fs pl.target == resolvePath fs a2.repoSkill) then
          none
        else
          some (pl.name, pl.target)
      else none)) = [] := by
    apply filterMap_eq_nil_of_none
    intro pl hpl
    rcases hsafe pl hpl with hown | hnex
    · have hex : pathExists fs pl.target = true := by
        rw [pathExists_link fs pl.target a2.repoSkill hown, hrepo]
        rfl
      rw [if_pos hex, if_pos]
      simp only [isSymlink, resolvePath, hown, hrepo]
      simp
    · rw [if_neg (by simp [hnex])]
  rw [hplat, List.append_nil]
  rfl

/-- With the canonical entry present and no self-filtering, the rerun's
conflict set contains the repo key and is nonempty. -/
theorem conflicts_ne_nil_of_repo (fs : Fs) (a2 : InstallArgs) (c : Nat)
    (hnoself : ¬(a2.kind ≠ .gitClone ∧ a2.source = a2.repoSkill))
    (hrepo : fs a2.repoSkill = .node c) :
    filteredConflicts fs a2 ≠ [] := by
  unfold filteredConflicts
  rw [if_neg hnoself]
  unfold check_conflicts
  rw [if_pos (pathExists_node fs a2.repoSkill c hrepo)]
  simp

/-- Rerunning the same install on a completed-run state leaves the on-disk
state and the ledger exactly as they were; and whenever the second run sees
no conflicts and its source exists, it completes with zero fresh links. -/
theorem rerun_stable (a : InstallArgs) (s1 : SysState) (c2 : Nat) (d2 : Bool)
    (src2 : Path)
    (hsrcKind : a.kind = .skillArchive ∨ a.kind = .gitClone →
        a.source ≠ a.repoSkill)
    (hgit : a.kind = .gitClone → s1.fs src2 = .absent ∧ src2 ≠ a.repoSkill
        ∧ s1.fs a.repoSkill = .node c2)
    (hpost : (∃ c, PostNormal a s1 c) ∨ PostDegenerate a s1) :
    (install_main (rerunState a s1 src2 c2) (rerunArgs a d2 src2)).1 = s1
    ∧ (pathExists (rerunState a s1 src2 c2).fs (rerunArgs a d2 src2).source = true →
        filteredConflicts (rerunState a s1 src2 c2).fs (rerunArgs a d2 src2) = [] →
        install_main (rerunState a s1 src2 c2) (rerunArgs a d2 src2)
          = (s1, .completed 0)) := by
  rcases hpost with ⟨c, hP⟩ | hD
  · by_cases hk : a.kind = .gitClone
    · -- git source: a fresh clone faces the repo conflict
      obtain ⟨hfresh, hs2rp, hrpc2⟩ := hgit hk
      have hst : rerunState a s1 src2 c2
          = ⟨setEntry s1.fs src2 (.node c2), s1.ledger⟩ := by
        unfold rerunState; rw [if_pos hk]
      have ha2 : rerunArgs a d2 src2 =
          ⟨a.skillName, src2, .gitClone, a.repoSkill, a.platforms, d2,
           a.selection⟩ := by
        unfold rerunArgs; rw [if_pos hk, hk]
      rw [hst, ha2]
      have hrpX : setEntry s1.fs src2 (.node c2) a.repoSkill = .node c2 := by
        rw [setEntry_other _ _ _ _ (fun hq => hs2rp hq.symm)]
        exact hrpc2
      have hcne : filteredConflicts (setEntry s1.fs src2 (.node c2))
          ⟨a.skillName, src2, .gitClone, a.repoSkill, a.platforms, d2,
           a.selection⟩ ≠ [] :=
        conflicts_ne_nil_of_repo _ _ c2 (fun hcon => hcon.1 rfl) hrpX
      refine ⟨?_, fun _ hcf => absurd hcf hcne⟩
      cases d2 with
      | false =>
          have hmain : install_main ⟨setEntry s1.fs src2 (.node c2), s1.ledger⟩
              ⟨a.skillName, src2, .gitClone, a.repoSkill, a.platforms, false,
               a.selection⟩
              = (⟨cleanupTemp ⟨a.skillName, src2, .gitClone, a.repoSkill,
                    a.platforms, false, a.selection⟩
                    (setEntry s1.fs src2 (.node c2)), s1.ledger⟩, .cancelled) :=
            install_main_cancel _ _ (fun hcon => hcon.1 rfl) ⟨hcne, rfl⟩
          have hcl : cleanupTemp ⟨a.skillName, src2, .gitClone, a.repoSkill,
              a.platforms, false, a.selection⟩
              (setEntry s1.fs src2 (.node c2)) = s1.fs := by
            show setEntry (setEntry s1.fs src2 (.node c2)) src2 .absent = s1.fs
            rw [setEntry_collapse]
            exact setEntry_id s1.fs src2 .absent hfresh
          rw [hmain, hcl]
      | true =>
          have hF : decide (filteredConflicts (setEntry s1.fs src2 (.node c2))
              ⟨a.skillName, src2, .gitClone, a.repoSkill, a.platforms, true,
               a.selection⟩ ≠ []) = true := decide_eq_true hcne
          have heq : setEntry (setEntry (setEntry (setEntry s1.fs src2 (.node c2))
              a.repoSkill .absent) src2 .absent) a.repoSkill (.node c2)
              = s1.fs := by
            funext q
            by_cases hq1 : q = a.repoSkill
            · rw [hq1, setEntry_same]
              exact hrpc2.symm
            · rw [setEntry_other _ _ _ _ hq1]
              by_cases hq2 : q = src2
              · rw [hq2, setEntry_same]
                exact hfresh.symm
              · rw [setEntry_other _ _ _ _ hq2, setEntry_other _ _ _ _ hq1,
                  setEntry_other _ _ _ _ hq2]
          have hinst : install_to_repo (setEntry s1.fs src2 (.node c2)) src2
              a.repoSkill true .gitClone = .ok (s1.fs, a.repoSkill) := by
            unfold install_to_repo
            rw [repoRemove_force_eq_set _ _ (fun t => by rw [hrpX]; simp)]
            simp only [install_copy]
            have h1 : setEntry (setEntry s1.fs src2 (.node c2)) a.repoSkill
                .absent src2 = .node c2 := by
              rw [setEntry_other _ _ _ _ hs2rp, setEntry_same]
            have h2 : setEntry (setEntry s1.fs src2 (.node c2)) a.repoSkill
                .absent a.repoSkill = .absent := setEntry_same _ _ _
            rw [resolvePath_not_link _ src2 (fun t => by rw [h1]; simp),
              resolvePath_not_link _ a.repoSkill (fun t => by rw [h2]; simp),
              if_neg hs2rp, h1]
            show Except.ok (setEntry (setEntry (setEntry (setEntry s1.fs src2
                (.node c2)) a.repoSkill .absent) src2 .absent) a.repoSkill
                (.node c2), a.repoSkill) = _
            rw [heq]
          obtain ⟨kk, hsync⟩ := sync_all_owned_force a.repoSkill a.platforms c2
            a.selection s1.fs hrpc2 hP.selLinked
          obtain ⟨v, hv1, hv2, hv3⟩ := hP.ledgerEntry
          have hup : update_sync_metadata s1.fs s1.ledger a.skillName a.selection
              a.platforms a.repoSkill = s1.ledger :=
            update_metadata_stable s1.fs s1.ledger a.skillName a.selection
              a.platforms a.repoSkill v hv1 hv2 hv3
          have hi2 : install_to_repo (setEntry s1.fs src2 (.node c2)) src2
              a.repoSkill
              (decide (filteredConflicts (setEntry s1.fs src2 (.node c2))
                ⟨a.skillName, src2, .gitClone, a.repoSkill, a.platforms, true,
                 a.selection⟩ ≠ [])) .gitClone = .ok (s1.fs, a.repoSkill) := by
            rw [hF]; exact hinst
          have hs2 : sync_to_platforms s1.fs a.repoSkill a.selection a.platforms
              (decide (filteredConflicts (setEntry s1.fs src2 (.node c2))
                ⟨a.skillName, src2, .gitClone, a.repoSkill, a.platforms, true,
                 a.selection⟩ ≠ [])) = .ok (s1.fs, kk) := by
            rw [hF]; exact hsync
          have hmain : install_main ⟨setEntry s1.fs src2 (.node c2), s1.ledger⟩
              ⟨a.skillName, src2, .gitClone, a.repoSkill, a.platforms, true,
               a.selection⟩
              = (⟨cleanupTemp ⟨a.skillName, src2, .gitClone, a.repoSkill,
                    a.platforms, true, a.selection⟩ s1.fs,
                  update_sync_metadata s1.fs s1.ledger a.skillName a.selection
                    a.platforms a.repoSkill⟩, .completed kk) :=
            install_main_build _ _ s1.fs s1.fs a.repoSkill kk
              (fun hcon => hcon.1 rfl)
              (fun hcon => Bool.noConfusion hcon.2)
              hi2 hs2
          have hcl : cleanupTemp ⟨a.skillName, src2, .gitClone, a.repoSkill,
              a.platforms, true, a.selection⟩ s1.fs = s1.fs := by
            show setEntry s1.fs src2 .absent = s1.fs
            exact setEntry_id s1.fs src2 .absent hfresh
          rw [hmain, hcl, hup]
    · -- non-git rerun
      have hst : rerunState a s1 src2 c2 = s1 := by
        unfold rerunState; rw [if_neg hk]
      have ha2 : rerunArgs a d2 src2 =
          ⟨a.skillName, a.source, a.kind, a.repoSkill, a.platforms, d2,
           a.selection⟩ := by
        unfold rerunArgs; rw [if_neg hk]
      rw [hst, ha2]
      by_cases hself : a.source = a.repoSkill
      · -- self reinstall: conflict-free, completes with zero links
        have hkp : a.kind = .plainDir := by
          cases hk2 : a.kind with
          | plainDir => rfl
          | skillArchive => exact absurd hself (hsrcKind (Or.inl hk2))
          | gitClone => exact absurd hk2 hk
        have hsafe : SafeTargets s1.fs a.repoSkill a.platforms :=
          hP.selfSafe hk hself
        have hcf : filteredConflicts s1.fs
            ⟨a.skillName, a.source, a.kind, a.repoSkill, a.platforms, d2,
             a.selection⟩ = [] :=
          self_rerun_no_conflicts s1.fs _ c hk hself hP.repoDir hsafe
        have hF : decide (filteredConflicts s1.fs
            ⟨a.skillName, a.source, a.kind, a.repoSkill, a.platforms, d2,
             a.selection⟩ ≠ []) = false :=
          decide_eq_false (fun h => h hcf)
        have hexS : pathExists s1.fs a.source = true := by
          rw [hself]
          exact pathExists_node s1.fs a.repoSkill c hP.repoDir
        have hinst : install_to_repo s1.fs a.source a.repoSkill false a.kind
            = .ok (s1.fs, a.repoSkill) := by
          rw [hkp]
          unfold install_to_repo
          rw [repoRemove_noforce]
          simp only [install_copy]
          rw [hself, if_pos rfl]
        have hsync : sync_to_platforms s1.fs a.repoSkill a.selection a.platforms
            false = .ok (s1.fs, 0) :=
          sync_all_owned a.repoSkill a.platforms c a.selection s1.fs hP.repoDir
            hP.selLinked
        obtain ⟨v, hv1, hv2, hv3⟩ := hP.ledgerEntry
        have hup : update_sync_metadata s1.fs s1.ledger a.skillName a.selection
            a.platforms a.repoSkill = s1.ledger :=
          update_metadata_stable s1.fs s1.ledger a.skillName a.selection
            a.platforms a.repoSkill v hv1 hv2 hv3
        have hi2 : install_to_repo s1.fs a.source a.repoSkill
            (decide (filteredConflicts s1.fs ⟨a.skillName, a.source, a.kind,
              a.repoSkill, a.platforms, d2, a.selection⟩ ≠ [])) a.kind
            = .ok (s1.fs, a.repoSkill) := by
          rw [hF]; exact hinst
        have hs2 : sync_to_platforms s1.fs a.repoSkill a.selection a.platforms
            (decide (filteredConflicts s1.fs ⟨a.skillName, a.source, a.kind,
              a.repoSkill, a.platforms, d2, a.selection⟩ ≠ []))
            = .ok (s1.fs, 0) := by
          rw [hF]; exact hsync
        have hmain : install_main s1
            ⟨a.skillName, a.source, a.kind, a.repoSkill, a.platforms, d2,
             a.selection⟩
            = (⟨cleanupTemp ⟨a.skillName, a.source, a.kind, a.repoSkill,
                  a.platforms, d2, a.selection⟩ s1.fs,
                update_sync_metadata s1.fs s1.ledger a.skillName a.selection
                  a.platforms a.repoSkill⟩, .completed 0) :=
          install_main_build _ _ s1.fs s1.fs a.repoSkill 0
            (fun hcon => hcon.2 hexS)
            (fun hcon => hcon.1 hcf)
            hi2 hs2
        have hcl : cleanupTemp ⟨a.skillName, a.source, a.kind, a.repoSkill,
            a.platforms, d2, a.selection⟩ s1.fs = s1.fs := by
          show (if a.kind = SourceKind.gitClone then
            setEntry s1.fs a.source Entry.absent else s1.fs) = s1.fs
          rw [if_neg hk]
        refine ⟨?_, fun _ _ => ?_⟩
        · rw [hmain, hcl, hup]
        · rw [hmain, hcl, hup]
      · -- an external source reinstalled: the repo conflict cancels or forces
        have hsrc : s1.fs a.source = .node c := by
          cases hk2 : a.kind with
          | plainDir => exact hP.srcDir hk2 hself
          | skillArchive => exact hP.srcArch hk2
          | gitClone => exact absurd hk2 hk
        have hcne : filteredConflicts s1.fs
            ⟨a.skillName, a.source, a.kind, a.repoSkill, a.platforms, d2,
             a.selection⟩ ≠ [] :=
          conflicts_ne_nil_of_repo s1.fs _ c (fun hcon => hself hcon.2) hP.repoDir
        have hexS : pathExists s1.fs a.source = true :=
          pathExists_node s1.fs a.source c hsrc
        refine ⟨?_, fun _ hcf => absurd hcf hcne⟩
        cases d2 with
        | false =>
            have hmain : install_main s1
                ⟨a.skillName, a.source, a.kind, a.repoSkill, a.platforms, false,
                 a.selection⟩
                = (⟨cleanupTemp ⟨a.skillName, a.source, a.kind, a.repoSkill,
                      a.platforms, false, a.selection⟩ s1.fs, s1.ledger⟩,
                   .cancelled) :=
              install_main_cancel _ _ (fun hcon => hcon.2 hexS) ⟨hcne, rfl⟩
            have hcl : cleanupTemp ⟨a.skillName, a.source, a.kind, a.repoSkill,
                a.platforms, false, a.selection⟩ s1.fs = s1.fs := by
              show (if a.kind = SourceKind.gitClone then
                setEntry s1.fs a.source Entry.absent else s1.fs) = s1.fs
              rw [if_neg hk]
            rw [hmain, hcl]
        | true =>
            have hF : decide (filteredConflicts s1.fs
                ⟨a.skillName, a.source, a.kind, a.repoSkill, a.platforms, true,
                 a.selection⟩ ≠ []) = true := decide_eq_true hcne
            have hY1 : setEntry s1.fs a.repoSkill .absent a.source = .node c := by
              rw [setEntry_other _ _ _ _ hself]
              exact hsrc
            have hY2 : setEntry s1.fs a.repoSkill .absent a.repoSkill = .absent :=
              setEntry_same _ _ _
            have hcollapse : setEntry (setEntry s1.fs a.repoSkill .absent)
                a.repoSkill (.node c) = s1.fs := by
              rw [setEntry_collapse]
              exact setEntry_id s1.fs a.repoSkill (.node c) hP.repoDir
            have hinst : install_to_repo s1.fs a.source a.repoSkill true a.kind
                = .ok (s1.fs, a.repoSkill) := by
              unfold install_to_repo
              rw [repoRemove_force_eq_set _ _
                (fun t => by rw [hP.repoDir]; simp)]
              cases hk2 : a.kind with
              | gitClone => exact absurd hk2 hk
              | plainDir =>
                  simp only [install_copy]
                  rw [resolvePath_not_link _ a.source (fun t => by rw [hY1]; simp),
                    resolvePath_not_link _ a.repoSkill
                      (fun t => by rw [hY2]; simp),
                    if_neg hself, hY1, hY2]
                  show Except.ok (setEntry (setEntry s1.fs a.repoSkill .absent)
                      a.repoSkill (.node c), a.repoSkill) = _
                  rw [hcollapse]
              | skillArchive =>
                  simp only [install_copy]
                  rw [hY1, hY2]
                  show Except.ok (setEntry (setEntry s1.fs a.repoSkill .absent)
                      a.repoSkill (.node c), a.repoSkill) = _
                  rw [hcollapse]
            obtain ⟨kk, hsync⟩ := sync_all_owned_force a.repoSkill a.platforms c
              a.selection s1.fs hP.repoDir hP.selLinked
            obtain ⟨v, hv1, hv2, hv3⟩ := hP.ledgerEntry
            have hup : update_sync_metadata s1.fs s1.ledger a.skillName
                a.selection a.platforms a.repoSkill = s1.ledger :=
              update_metadata_stable s1.fs s1.ledger a.skillName a.selection
                a.platforms a.repoSkill v hv1 hv2 hv3
            have hi2 : install_to_repo s1.fs a.source a.repoSkill
                (decide (filteredConflicts s1.fs ⟨a.skillName, a.source, a.kind,
                  a.repoSkill, a.platforms, true, a.selection⟩ ≠ [])) a.kind
                = .ok (s1.fs, a.repoSkill) := by
              rw [hF]; exact hinst
            have hs2 : sync_to_platforms s1.fs a.repoSkill a.selection
                a.platforms
                (decide (filteredConflicts s1.fs ⟨a.skillName, a.source, a.kind,
                  a.repoSkill, a.platforms, true, a.selection⟩ ≠ []))
                = .ok (s1.fs, kk) := by
              rw [hF]; exact hsync
            have hmain : install_main s1
                ⟨a.skillName, a.source, a.kind, a.repoSkill, a.platforms, true,
                 a.selection⟩
                = (⟨cleanupTemp ⟨a.skillName, a.source, a.kind, a.repoSkill,
                      a.platforms, true, a.selection⟩ s1.fs,
                    update_sync_metadata s1.fs s1.ledger a.skillName a.selection
                      a.platforms a.repoSkill⟩, .completed kk) :=
              install_main_build _ _ s1.fs s1.fs a.repoSkill kk
                (fun hcon => hcon.2 hexS)
                (fun hcon => Bool.noConfusion hcon.2)
                hi2 hs2
            have hcl : cleanupTemp ⟨a.skillName, a.source, a.kind, a.repoSkill,
                a.platforms, true, a.selection⟩ s1.fs = s1.fs := by
              show (if a.kind = SourceKind.gitClone then
                setEntry s1.fs a.source Entry.absent else s1.fs) = s1.fs
              rw [if_neg hk]
            rw [hmain, hcl, hup]
  · -- degenerate post-state: the rerun errors out before touching anything
    have hD2 : a.kind ≠ .gitClone ∧ pathExists s1.fs a.source = false := hD
    obtain ⟨hkng, hnex⟩ := hD2
    have hst : rerunState a s1 src2 c2 = s1 := by
      unfold rerunState; rw [if_neg hkng]
    have ha2 : rerunArgs a d2 src2 =
        ⟨a.skillName, a.source, a.kind, a.repoSkill, a.platforms, d2,
         a.selection⟩ := by
      unfold rerunArgs; rw [if_neg hkng]
    rw [hst, ha2]
    have hmain : install_main s1
        ⟨a.skillName, a.source, a.kind, a.repoSkill, a.platforms, d2,
         a.selection⟩ = (s1, .errored "Path does not exist") :=
      install_main_noSource s1 _
        ⟨hkng, fun h => by rw [h] at hnex; exact Bool.noConfusion hnex⟩
    refine ⟨by rw [hmain], fun hg _ => absurd hg (by simp [hnex])⟩

/-- Claim C8: the location-state prober `check_path_status` classifies every
path exactly per the specified algorithm: absent when the path neither
exists nor is a symlink; for a symlink, broken when the resolution does not
exist, owned (synced) when the resolution equals the supplied expected
canonical target, foreign (linked, carrying the resolved target) otherwise;
an existing non-symlink is a foreign directory. -/
theorem C8_prober_matches_spec (fs : Fs) (path : Path) (expected : Option Path) :
    check_path_status fs path expected = specLocationState fs path expected := by
  cases h : fs path with
  | absent =>
      have e1 : pathExists fs path = false := by
        simp [pathExists, resolvePath, entryIsReal, h]
      have e2 : isSymlink fs path = false := by simp [isSymlink, h]
      simp [check_path_status, specLocationState, e1, e2, h]
  | node c =>
      have e1 : pathExists fs path = true := by
        simp [pathExists, resolvePath, entryIsReal, h]
      have e2 : isSymlink fs path = false := by simp [isSymlink, h]
      simp [check_path_status, specLocationState, e1, e2, h]
  | link t =>
      have e2 : isSymlink fs path = true := by simp [isSymlink, h]
      have e3 : resolvePath fs path = t := by simp [resolvePath, h]
      cases hx : pathExists fs t with
      | false => simp [check_path_status, specLocationState, e2, e3, hx, h]
      | true =>
          cases expected <;>
            simp [check_path_status, specLocationState, e2, e3, hx, h]

/-- Claim C7 (code bug): config.py's `load_metadata` treats an unparseable
ledger file as an empty ledger, but uninstall_skill.py's own `load_metadata`
has no such handler — the JSONDecodeError propagates and the uninstall
operation dies instead of proceeding with an empty mapping. -/
theorem C7_malformed_ledger_eval :
    config_load_metadata .malformed = emptyLedger
    ∧ uninstall_load_metadata .malformed
        = Except.error "json.decoder.JSONDecodeError"
    ∧ config_load_metadata .missing = emptyLedger := by
  exact ⟨rfl, rfl, rfl⟩

/-- Claim C5 (code bug): Cursor is one of the ten configured platforms in
config.py, and the skill `foo` exists in its skills directory, yet
uninstall's `get_skill_locations` offers no location at all: its hardcoded
`PLATFORMS` table covers only repo, gemini, claude and antigravity, so no
location it ever enumerates can lie in the other seven platforms. -/
theorem C5_uninstall_platform_coverage :
    (⟨"Cursor", "cursor", "~/.cursor/skills", ".cursor/skills"⟩ : PlatformConf)
        ∈ SUPPORTED_PLATFORMS
    ∧ pathExists c5Fs (joinPath "~/.cursor/skills" "foo") = true
    ∧ get_skill_locations c5Fs "foo" = []
    ∧ ∀ fs name, ((get_skill_locations fs name).map Prod.fst).all
        (fun x => ["repo", "gemini", "claude", "antigravity"].contains x) = true := by
  refine ⟨by decide, by decide, by decide, ?_⟩
  intro fs name
  rw [List.all_eq_true]
  intro x hx
  rcases List.mem_map.mp hx with ⟨pr, hpr, rfl⟩
  rcases List.mem_filterMap.mp hpr with ⟨q, hq, hfq⟩
  have hpr1 : pr.1 = q.1 := by
    dsimp only at hfq
    split at hfq
    · cases hfq
      rfl
    · cases hfq
  rw [hpr1]
  simp only [UNINSTALL_PLATFORMS, List.mem_cons, List.not_mem_nil, or_false] at hq
  rcases hq with h | h | h | h <;> rw [h] <;> decide

/-- Claim C9: for both git-probe functions, a fetch failure, a missing
upstream tracking reference and a probe timeout each yield a result distinct
from the even (up-to-date, 0 behind / 0 ahead) result — in list_synced.py
the status code is literally "error" — and the batch probe is a pointwise
map, so one skill's outcome never influences another's reported result. -/
theorem C9_probe_errors_distinct :
    (∀ o : ProbeOutcome,
      o = .fetchFail ∨ o = .noUpstream ∨ o = .timeoutExpired →
        check_updates_available o ≠ check_updates_available (.counts 0 0)
        ∧ check_git_remote_status (some o) ≠ check_git_remote_status (some (.counts 0 0))
        ∧ (check_git_remote_status (some o)).1 = "error")
    ∧ ∀ (pre post : List (String × ProbeOutcome)) (name : String) (o : ProbeOutcome),
        probe_many (pre ++ (name, o) :: post)
          = probe_many pre ++ (name, check_updates_available o) :: probe_many post := by
  constructor
  · rintro o (rfl | rfl | rfl) <;> exact ⟨by decide, by decide, rfl⟩
  · intro pre post name o
    simp [probe_many]

/-- Witness for C9: a timed-out probe is a concrete error outcome whose
result differs from the even result. -/
theorem C9_witness :
    check_updates_available .timeoutExpired
      ≠ check_updates_available (.counts 0 0) :=
  (C9_probe_errors_distinct.1 .timeoutExpired (by decide)).1

/-- The platform-conflict guard of `check_conflicts`, phrased through the
location-state prober (with the resolved canonical path as the expected
target): a location is a conflict exactly in the `foreign directory` and
`foreign symlink` states.  The no-chain hypothesis says the location's
symlink (if any) stores a fully resolved target, per the modelling
convention. -/
theorem conflict_condition_status (fs : Fs) (repoSkill p : Path)
    (hnochain : ∀ u v, fs p = .link u → fs u ≠ .link v) :
    (pathExists fs p = true
      ∧ ¬(isSymlink fs p = true ∧ resolvePath fs p = resolvePath fs repoSkill))
    ↔ (check_path_status fs p (some (resolvePath fs repoSkill)) = .localDirectory
        ∨ ∃ t2, check_path_status fs p (some (resolvePath fs repoSkill)) = .linked t2) := by
  cases h : fs p with
  | absent =>
      have e1 : pathExists fs p = false := by
        simp [pathExists, resolvePath, entryIsReal, h]
      have e2 : isSymlink fs p = false := by simp [isSymlink, h]
      simp [check_path_status, e1, e2]
  | node c =>
      have e1 : pathExists fs p = true := by
        simp [pathExists, resolvePath, entryIsReal, h]
      have e2 : isSymlink fs p = false := by simp [isSymlink, h]
      simp [check_path_status, e1, e2]
  | link t =>
      have e2 : isSymlink fs p = true := by simp [isSymlink, h]
      have e3 : resolvePath fs p = t := by simp [resolvePath, h]
      have hnl : ∀ v, fs t ≠ .link v := fun v => hnochain t v h
      have e4 : pathExists fs t = entryIsReal (fs t) := by
        unfold pathExists resolvePath
        cases ht : fs t with
        | link v => exact absurd ht (hnl v)
        | absent => rw [ht]
        | node c => rw [ht]
      have e1 : pathExists fs p = entryIsReal (fs t) := by
        simp [pathExists, resolvePath, h]
      cases hr : entryIsReal (fs t) with
      | false =>
          rw [hr] at e1 e4
          simp [check_path_status, e1, e2, e3, e4]
      | true =>
          rw [hr] at e1 e4
          by_cases heq : t = resolvePath fs repoSkill
          · rw [heq] at e4
            simp [check_path_status, e1, e2, e3, e4, heq]
          · simp [check_path_status, e1, e2, e3, e4, heq]

/-- Claim C1, counterexample: at a platform location occupied by a broken
symlink — non-absent, and not an owned symlink resolving to the canonical
repository path — the classifier reports no conflict, refuting the claimed
"conflict iff the location exists (is non-absent) and is not an owned
symlink": `check_conflicts` tests occupancy with `Path.exists()`, which
follows the dangling link and returns false. -/
theorem C1_counterexample :
    ¬ ((("Claude Code", "~/.claude/skills/foo")
          ∈ check_conflicts c1Fs "~/.skill_repo/foo"
              [⟨"claude", "Claude Code", "~/.claude/skills/foo"⟩])
        ↔ (c1Fs "~/.claude/skills/foo" ≠ .absent
            ∧ ¬ (isSymlink c1Fs "~/.claude/skills/foo" = true
                  ∧ resolvePath c1Fs "~/.claude/skills/foo" = "~/.skill_repo/foo"))) := by
  decide

/-- Claim C1 as amended: a platform location is reported as a conflict iff
it exists after following symlinks and is not a symlink resolving to the
canonical repository path's resolution — equivalently, iff its probed state
is `foreign directory` or `foreign symlink`; in particular an owned symlink,
an absent location and a BROKEN symlink are not conflicts, while the
repository location is a conflict iff it exists after following symlinks. -/
theorem C1_conflict_classification (fs : Fs) (repoSkill : Path)
    (platforms : List PlatformInfo) (pl : PlatformInfo)
    (hmem : pl ∈ platforms) (hnames : ∀ q ∈ platforms, q.name ≠ "repo")
    (hnochain : ∀ u v, fs pl.target = .link u → fs u ≠ .link v) :
    ((pl.name, pl.target) ∈ check_conflicts fs repoSkill platforms
      ↔ (check_path_status fs pl.target (some (resolvePath fs repoSkill)) = .localDirectory
          ∨ ∃ t2, check_path_status fs pl.target (some (resolvePath fs repoSkill))
                    = .linked t2))
    ∧ (("repo", repoSkill) ∈ check_conflicts fs repoSkill platforms
        ↔ pathExists fs repoSkill = true) := by
  constructor
  · rw [mem_check_conflicts_platform fs repoSkill platforms pl hmem (hnames pl hmem)]
    exact conflict_condition_status fs repoSkill pl.target hnochain
  · constructor
    · intro h
      unfold check_conflicts at h
      rcases List.mem_append.mp h with h | h
      · by_cases hex : pathExists fs repoSkill = true
        · exact hex
        · rw [if_neg hex] at h
          simp at h
      · exfalso
        rcases List.mem_filterMap.mp h with ⟨q, hq, hfq⟩
        by_cases hex : pathExists fs q.target = true
        · by_cases hown : (isSymlink fs q.target
              && (resolvePath fs q.target == resolvePath fs repoSkill)) = true
          · simp [hex, hown] at hfq
          · simp only [hex, if_true] at hfq
            rw [if_neg (by simp [hown])] at hfq
            exact hnames q hq (congrArg Prod.fst (Option.some.inj hfq))
        · rw [if_neg hex] at hfq
          simp at hfq
    · intro hex
      unfold check_conflicts
      rw [if_pos hex]
      exact List.mem_append.mpr (Or.inl (List.mem_singleton.mpr rfl))

/-- Witness for C1 at a concrete state: the foreign directory at the Claude
location is reported as a conflict, matching its probed state. -/
theorem C1_witness :
    ("Claude Code", "~/.claude/skills/bar")
        ∈ check_conflicts c1wFs "~/.skill_repo/bar"
            [⟨"claude", "Claude Code", "~/.claude/skills/bar"⟩] :=
  (C1_conflict_classification c1wFs "~/.skill_repo/bar"
      [⟨"claude", "Claude Code", "~/.claude/skills/bar"⟩]
      ⟨"claude", "Claude Code", "~/.claude/skills/bar"⟩
      (by decide) (by decide)
      (fun u v h => by simp [c1wFs] at h)).1.mpr
    (Or.inl (by decide))

/-- Claim C10: a platform location holding a broken symlink (stored target
not a real node) is never listed by the conflict classifier, and
`create_symlink` raises FileExistsError there regardless of the force flag:
the `target.exists()` guard follows the link, reports false, so the stale
entry is not removed and `target.symlink_to` hits an occupied path. -/
theorem C10_broken_symlink_blocks_install (fs : Fs) (repoSkill : Path)
    (platforms : List PlatformInfo) (pl : PlatformInfo) (force : Bool) (t : Path)
    (_hmem : pl ∈ platforms) (hname : pl.name ≠ "repo")
    (hlink : fs pl.target = .link t) (hdangling : entryIsReal (fs t) = false) :
    create_symlink fs repoSkill pl.target force = .error "FileExistsError"
    ∧ (pl.name, pl.target) ∉ check_conflicts fs repoSkill platforms := by
  have hex : pathExists fs pl.target = false := by
    simp [pathExists, resolvePath, hlink, hdangling]
  constructor
  · simp [create_symlink, hex, hlink]
  · intro hcon
    unfold check_conflicts at hcon
    rcases List.mem_append.mp hcon with h | h
    · split at h
      · simp at h
        exact hname h.1
      · simp at h
    · rcases List.mem_filterMap.mp h with ⟨q, hq, hfq⟩
      by_cases hqex : pathExists fs q.target = true
      · simp only [hqex, if_true] at hfq
        split at hfq
        · simp at hfq
        · simp at hfq
          have : q.target = pl.target := hfq.2
          rw [this, hex] at hqex
          simp at hqex
      · simp only [Bool.not_eq_true] at hqex
        simp [hqex] at hfq

/-- Claim C2: when the (post-filter) conflict set is nonempty and the
overwrite decision is negative, install_skill.py's main aborts before any
mutation: the ledger is untouched, and every path other than a git source's
temporary clone directory (removed by the finally block) keeps its entry;
for a non-git source the filesystem is untouched entirely. -/
theorem C2_declined_conflicts_abort (s : SysState) (a : InstallArgs)
    (hc : filteredConflicts s.fs a ≠ []) (hd : a.decision = false) :
    ((install_main s a).2 = .cancelled
      ∨ (install_main s a).2 = .errored "Path does not exist")
    ∧ (install_main s a).1.ledger = s.ledger
    ∧ (∀ p, p ≠ a.source → (install_main s a).1.fs p = s.fs p)
    ∧ (a.kind ≠ .gitClone → (install_main s a).1.fs = s.fs) := by
  unfold install_main
  by_cases hsrc : a.kind ≠ .gitClone ∧ ¬ pathExists s.fs a.source
  · rw [if_pos hsrc]
    exact ⟨Or.inr rfl, rfl, fun p _ => rfl, fun _ => rfl⟩
  · rw [if_neg hsrc, if_pos ⟨hc, hd⟩]
    refine ⟨Or.inl rfl, rfl, ?_, ?_⟩
    · intro p hp
      unfold cleanupTemp
      by_cases hk : a.kind = .gitClone
      · rw [if_pos hk]
        simp [setEntry, hp]
      · rw [if_neg hk]
    · intro hk
      show cleanupTemp a s.fs = s.fs
      unfold cleanupTemp
      rw [if_neg hk]

/-- Witness for C2 at a concrete conflicting state with a negative
decision. -/
theorem C2_witness :
    ((install_main ⟨c2Fs, emptyLedger⟩ c2Args).2 = Outcome.cancelled
      ∨ (install_main ⟨c2Fs, emptyLedger⟩ c2Args).2 = .errored "Path does not exist")
    ∧ (install_main ⟨c2Fs, emptyLedger⟩ c2Args).1.fs "~/.skill_repo/foo"
        = c2Fs "~/.skill_repo/foo"
    ∧ (install_main ⟨c2Fs, emptyLedger⟩ c2Args).1.ledger = emptyLedger :=
  have h := C2_declined_conflicts_abort ⟨c2Fs, emptyLedger⟩ c2Args (by decide) rfl
  ⟨h.1, h.2.2.1 "~/.skill_repo/foo" (by decide), h.2.1⟩

/-- Claim C4 (code bug): self-install is indeed never reported as a
repository conflict (the "repo" key is popped), but `install_to_repo` is
NOT a no-op regardless of force: its `target_path.exists() and force`
removal runs BEFORE the source-equals-target check, so a forced
self-install deletes the canonical content (node 7 becomes absent) and then
"returns the existing path" — which now points at nothing — while main
reports success and even registers a ledger entry for the destroyed skill.
With force unset the step is the claimed no-op. -/
theorem C4_forced_self_install_destroys_canonical :
    (("repo", "~/.skill_repo/foo") ∉ filteredConflicts c4Fs c4Args)
    ∧ c4Fs "~/.skill_repo/foo" = .node 7
    ∧ ((install_to_repo c4Fs "~/.skill_repo/foo" "~/.skill_repo/foo" true
          .plainDir).toOption.map (fun r => r.1 "~/.skill_repo/foo")) = some .absent
    ∧ ((install_to_repo c4Fs "~/.skill_repo/foo" "~/.skill_repo/foo" false
          .plainDir).toOption.map (fun r => r.1 "~/.skill_repo/foo")) = some (.node 7)
    ∧ (install_main ⟨c4Fs, emptyLedger⟩ c4Args).1.fs "~/.skill_repo/foo" = .absent
    ∧ (install_main ⟨c4Fs, emptyLedger⟩ c4Args).2 = .completed 0
    ∧ (install_main ⟨c4Fs, emptyLedger⟩ c4Args).1.ledger "foo"
        = some ⟨"~/.skill_repo/foo", []⟩ := by
  decide

/-- Claim C6, counterexample: uninstalling only the gemini location shrinks
the target list by MORE than the removed path — the claude target, a
recorded dangling symlink that was not selected for removal, is pruned too,
because uninstall_skill.py re-validates targets with `Path(t).exists()`
alone (no islink tolerance, unlike install's update_sync_metadata). -/
theorem C6_counterexample :
    isSymlink c6Fs "~/.claude/skills/foo" = true
    ∧ pathExists c6Fs "~/.claude/skills/foo" = false
    ∧ (uninstall_skill c6Fs c6Ledger "foo" ["gemini"]).2 "foo"
        = some ⟨"~/.skill_repo/foo", ["~/.gemini/antigravity/skills/foo"]⟩ := by
  decide

/-- Claim C6 as amended: if the repository is among the removed targets the
skill's entire ledger entry is deleted; otherwise the entry's target list
is replaced by exactly those recorded targets that still exist (following
symlinks) in the post-removal filesystem — so the removed paths are pruned,
and so is any recorded target that is a dangling symlink or was deleted
externally — while the source field, and entries of other skills, are left
untouched; a skill with no ledger entry leaves the ledger unchanged. -/
theorem C6_ledger_pruning (fs : Fs) (ledger : Ledger) (skillName : String)
    (targets : List String) :
    (("repo" ∈ targets → ∀ e, ledger skillName = some e →
        (uninstall_skill fs ledger skillName targets).2 skillName = none)
      ∧ ("repo" ∉ targets → ∀ e, ledger skillName = some e →
          (uninstall_skill fs ledger skillName targets).2 skillName
            = some ⟨e.source, e.targets.filter
                (fun t => pathExists (removeAll fs skillName targets) t)⟩)
      ∧ (∀ n, n ≠ skillName →
          (uninstall_skill fs ledger skillName targets).2 n = ledger n)
      ∧ (ledger skillName = none →
          (uninstall_skill fs ledger skillName targets).2 = ledger)) := by
  refine ⟨?_, ?_, ?_, ?_⟩
  · intro hrepo e he
    simp [uninstall_skill, he, hrepo]
  · intro hrepo e he
    simp [uninstall_skill, he, hrepo]
  · intro n hn
    cases he : ledger skillName with
    | none => simp [uninstall_skill, he]
    | some e =>
        by_cases hrepo : "repo" ∈ targets
        · simp [uninstall_skill, he, hrepo, hn]
        · simp [uninstall_skill, he, hrepo, hn]
  · intro he
    simp [uninstall_skill, he]

/-- Witness for C6: the repo-removal case deletes the entry, the
platform-only case re-validates the recorded targets. -/
theorem C6_witness :
    (uninstall_skill c6Fs c6Ledger "foo" ["repo"]).2 "foo" = none
    ∧ (uninstall_skill c6Fs c6Ledger "foo" ["gemini"]).2 "foo"
        = some ⟨"~/.skill_repo/foo",
            ["~/.gemini/skills/foo", "~/.claude/skills/foo",
             "~/.gemini/antigravity/skills/foo"].filter
              (fun t => pathExists (removeAll c6Fs "foo" ["gemini"]) t)⟩ :=
  ⟨(C6_ledger_pruning c6Fs c6Ledger "foo" ["repo"]).1 (by decide)
      ⟨"~/.skill_repo/foo",
       ["~/.gemini/skills/foo", "~/.claude/skills/foo",
        "~/.gemini/antigravity/skills/foo"]⟩ (by decide),
   (C6_ledger_pruning c6Fs c6Ledger "foo" ["gemini"]).2.1 (by decide)
      ⟨"~/.skill_repo/foo",
       ["~/.gemini/skills/foo", "~/.claude/skills/foo",
        "~/.gemini/antigravity/skills/foo"]⟩ (by decide)⟩

/-- Witness for C10 at a concrete broken-symlink state. -/
theorem C10_witness :
    create_symlink
        (fun p => if p = "~/.claude/skills/foo" then .link "~/.skill_repo/gone" else .absent)
        "~/.skill_repo/foo" "~/.claude/skills/foo" true
      = .error "FileExistsError"
    ∧ ("Claude Code", "~/.claude/skills/foo")
        ∉ check_conflicts
            (fun p => if p = "~/.claude/skills/foo" then .link "~/.skill_repo/gone" else .absent)
            "~/.skill_repo/foo"
            [⟨"claude", "Claude Code", "~/.claude/skills/foo"⟩] :=
  C10_broken_symlink_blocks_install
    (fun p => if p = "~/.claude/skills/foo" then .link "~/.skill_repo/gone" else .absent)
    "~/.skill_repo/foo"
    [⟨"claude", "Claude Code", "~/.claude/skills/foo"⟩]
    ⟨"claude", "Claude Code", "~/.claude/skills/foo"⟩
    true "~/.skill_repo/gone" (by decide) (by decide) (by decide) (by decide)

/-- Counterexample to claim C3 as stated: reinstalling an external directory
source is neither conflict-free nor link-free the second time.  The first
run completes, creating one link; the second run of the identical arguments
sees the canonical copy made by the first run reported as a conflict, and —
with the overwrite prompt accepted — force-reinstalls, unlinking the owned
platform symlink and recreating it: the second run again counts one NEW
link created, so the owned link is recreated, not skipped. -/
theorem C3_counterexample :
    (install_main ⟨c3Fs, emptyLedger⟩ c3Args).2 = Outcome.completed 1
    ∧ filteredConflicts (install_main ⟨c3Fs, emptyLedger⟩ c3Args).1.fs c3Args ≠ []
    ∧ (install_main (install_main ⟨c3Fs, emptyLedger⟩ c3Args).1 c3Args).2
        = Outcome.completed 1 := by
  decide

/-- Claim C3 (as amended): installing the same source twice with identical
target selection produces identical on-disk state and ledger after the
second run — the rerun's resulting state is exactly the first run's state,
for a forced rerun, a cancelled rerun and (after the C4 degenerate forced
self-overwrite) an erroring rerun alike; and whenever the second run is
conflict-free and its source exists — the repo-reinstall case — it
completes with zero new links created, the owned symlinks being skipped
rather than recreated.  For an external source the second run is NOT
conflict-free: the canonical copy made by the first run is itself reported
as a conflict, so the rerun either cancels or force-recreates the owned
links (see the counterexample). -/
theorem C3_install_rerun_idempotent (s0 : SysState) (a : InstallArgs)
    (s1 : SysState) (n c2 : Nat) (d2 : Bool) (src2 : Path)
    (hwf : ArgsWf a s0.fs)
    (hrun : install_main s0 a = (s1, .completed n))
    (hgit : a.kind = .gitClone → s1.fs src2 = .absent ∧ src2 ≠ a.repoSkill
        ∧ s1.fs a.repoSkill = .node c2) :
    (install_main (rerunState a s1 src2 c2) (rerunArgs a d2 src2)).1 = s1
    ∧ (pathExists (rerunState a s1 src2 c2).fs (rerunArgs a d2 src2).source = true →
        filteredConflicts (rerunState a s1 src2 c2).fs (rerunArgs a d2 src2) = [] →
        install_main (rerunState a s1 src2 c2) (rerunArgs a d2 src2)
          = (s1, .completed 0)) :=
  rerun_stable a s1 c2 d2 src2 hwf.srcKind hgit
    (run_characterization s0 a s1 n hwf hrun)

/-- Witness for C3: rerunning the concrete external-source install returns
exactly the first run's state. -/
theorem C3_witness :
    (install_main (rerunState c3Args (install_main ⟨c3Fs, emptyLedger⟩ c3Args).1
        "/tmp/clone" 0) (rerunArgs c3Args true "/tmp/clone")).1
      = (install_main ⟨c3Fs, emptyLedger⟩ c3Args).1 := by
  have h2 : (install_main ⟨c3Fs, emptyLedger⟩ c3Args).2 = Outcome.completed 1 := by
    decide
  exact (C3_install_rerun_idempotent ⟨c3Fs, emptyLedger⟩ c3Args
    (install_main ⟨c3Fs, emptyLedger⟩ c3Args).1 1 0 true "/tmp/clone"
    ⟨by decide, by decide, by decide,
     fun t h => by simp [c3Fs, c3Args] at h,
     fun t h => by simp [c3Fs, c3Args] at h,
     by decide,
     fun h => absurd h (by decide)⟩
    (by rw [← h2])
    (fun h => absurd h (by decide))).1

end SkillSync
